import Mathlib

/-!
Verification development for the shop order-event pipeline.

Shallow embedding of the in-memory SQS-like event queue
(src/src/services/cacheService.ts, class OrderSQSService), the consumer
(OrderHandlerService in src/src/routes/orders.ts) and the pieces of
OrderService / CacheService the consumer touches (src/unnamed/part_002,
src/src/services/cacheService.ts class CacheService).

Modelling conventions:
- Machine time (Date.now, setTimeout) is an explicit millisecond clock
  carried in the state; a setTimeout callback that re-queues a returned
  message is a pending entry in the delayed list, fired by advanceTo.
  All scheduled delays in this code are equal (the stubbed retry count
  makes every delay retryDelays[0]), so firing due timers in insertion
  order coincides with the runtime's deadline order.
- The id / receipt-handle generators (Date.now() plus a random suffix,
  documented in the source as producing unique values) are modelled as a
  fresh-nonce supply: the state carries nextNonce and each generator call
  consumes one nonce.
- The JS Map backing the deduplication cache is an association list with
  set-replaces semantics; the JS Set of processed message ids is a
  duplicate-free list.
- Network collaborators (PostgreSQL via OrderService, Redis via
  CacheService) are oracles: a Backend record says whether each store
  operation succeeds and whether Redis calls fail, and the consumer run
  produces a log of store mutations and cache invalidation attempts.
  CacheService.invalidateOrderCache catches every Redis error internally,
  so it is a total function producing a log entry that records success or
  failure of the attempt.
-/

namespace Shop

/-- Deduplication window in milliseconds (5 minutes), field
deduplicationWindowMs of OrderSQSService. -/
def deduplicationWindowMs : Nat := 5 * 60 * 1000

/-- Field maxRetries of OrderSQSService. -/
def maxRetries : Nat := 3

/-- Field retryDelays of OrderSQSService: 1s, 5s, 15s. -/
def retryDelays : List Nat := [1000, 5000, 15000]

/-- Injective string rendering of a fresh nonce, standing in for the
Date.now() plus random suffix of the source generators (documented there
as producing unique values). -/
def nonceSuffix (nonce : Nat) : String :=
  String.mk (List.replicate nonce '1')

/-- OrderSQSService.generateMessageId, modelled with a fresh nonce in
place of Date.now() plus random suffix. -/
def generateMessageId (nonce : Nat) : String :=
  "msg_" ++ nonceSuffix nonce

/-- OrderSQSService.generateReceiptHandle, modelled with a fresh nonce in
place of Date.now() plus random suffix. -/
def generateReceiptHandle (nonce : Nat) : String :=
  "receipt_" ++ nonceSuffix nonce

/-- OrderSQSService.getRetryCount. The source reads: return 0; with the
comment that retries are always allowed for now. -/
def getRetryCount (_messageId : String) : Nat := 0

/-- Payload data carried by an order event (the untyped data field of
OrderEvent in the source). -/
inductive EventData where
  | createData (customerName customerEmail : String)
      (items : List (String × String × Nat × ℚ))
  | updateData (status : String)
  | emptyData
  deriving Repr, DecidableEq

/-- Interface OrderEvent of src/src/services/cacheService.ts (orderSQS
part): id, type, optional orderId, optional data, timestamp, groupId,
deduplicationId. The type field is a runtime string. -/
structure OrderEvent where
  id : String
  type : String
  orderId : Option String
  eventData : Option EventData
  timestamp : Nat
  groupId : String
  deduplicationId : String
  deriving Repr, DecidableEq

/-- Interface OrderEventMessage: MessageId, ReceiptHandle, Body, and the
Attributes record (SentTimestamp, GroupId, DeduplicationId) flattened. -/
structure OrderEventMessage where
  MessageId : String
  ReceiptHandle : String
  Body : OrderEvent
  SentTimestamp : Nat
  AttrGroupId : String
  AttrDeduplicationId : String
  deriving Repr, DecidableEq

/-- Argument of sendMessage: an OrderEvent without id and timestamp
(those are assigned at enqueue time). -/
structure SendInput where
  type : String
  orderId : Option String
  eventData : Option EventData
  groupId : String
  deduplicationId : String
  deriving Repr, DecidableEq

/-- Mutable state of OrderSQSService: queue, processingQueue,
processedMessages, deduplicationCache, plus the explicit clock (now),
the pending setTimeout callbacks from returnMessage (delayed, as pairs
of fire time and message) and the fresh-nonce supply for the id
generators. -/
structure SQSState where
  now : Nat
  queue : List OrderEventMessage
  processingQueue : List OrderEventMessage
  processedMessages : List String
  deduplicationCache : List (String × Nat)
  delayed : List (Nat × OrderEventMessage)
  nextNonce : Nat
  deriving Repr, DecidableEq

/-- Initial state of the service singleton: all containers empty. -/
def initState : SQSState :=
  { now := 0, queue := [], processingQueue := [], processedMessages := [],
    deduplicationCache := [], delayed := [], nextNonce := 0 }

/-- JS Map.set on the association list: replace the binding in place if
the key is present, append it otherwise. -/
def mapSet : List (String × Nat) → String → Nat → List (String × Nat)
  | [], k, v => [(k, v)]
  | (k', v') :: rest, k, v =>
      if k' = k then (k, v) :: rest else (k', v') :: mapSet rest k v

/-- JS Set.add on the duplicate-free list of processed message ids. -/
def addToSet (l : List String) (x : String) : List String :=
  if l.contains x then l else l ++ [x]

/-- OrderSQSService.isDuplicate: a deduplication id is a duplicate when
it was last seen less than deduplicationWindowMs before the given
timestamp. -/
def isDuplicate (cache : List (String × Nat)) (deduplicationId : String)
    (timestamp : Nat) : Bool :=
  match cache.lookup deduplicationId with
  | none => false
  | some lastSeen => timestamp - lastSeen < deduplicationWindowMs

/-- Message record built by sendMessage from the input event, the fresh
message id and receipt handle, and the send timestamp. -/
def mkMessage (event : SendInput) (messageId receiptHandle : String)
    (timestamp : Nat) : OrderEventMessage :=
  { MessageId := messageId,
    ReceiptHandle := receiptHandle,
    Body :=
      { id := messageId, type := event.type, orderId := event.orderId,
        eventData := event.eventData, timestamp := timestamp,
        groupId := event.groupId, deduplicationId := event.deduplicationId },
    SentTimestamp := timestamp,
    AttrGroupId := event.groupId,
    AttrDeduplicationId := event.deduplicationId }

/-- OrderSQSService.sendMessage. Generates a message id, and if the
deduplication id is a duplicate returns just that id; otherwise builds
the message, pushes it onto the queue, records the deduplication id and
returns the id. -/
def sendMessage (s : SQSState) (event : SendInput) : SQSState × String :=
  let messageId := generateMessageId s.nextNonce
  if isDuplicate s.deduplicationCache event.deduplicationId s.now then
    ({ s with nextNonce := s.nextNonce + 1 }, messageId)
  else
    let message :=
      mkMessage event messageId (generateReceiptHandle (s.nextNonce + 1)) s.now
    ({ s with
        nextNonce := s.nextNonce + 2,
        queue := s.queue ++ [message],
        deduplicationCache :=
          mapSet s.deduplicationCache event.deduplicationId s.now },
     messageId)

/-- Messages of the queue array eligible for receive: not currently in
the processing queue (compared by MessageId) and not in the processed
set. This is the filter at the top of receiveMessage. -/
def availableMessages (s : SQSState) : List OrderEventMessage :=
  s.queue.filter (fun msg =>
    !(s.processingQueue.any (fun p => p.MessageId == msg.MessageId)) &&
    !(s.processedMessages.contains msg.MessageId))

/-- OrderSQSService.receiveMessage: take up to maxNumberOfMessages
eligible messages (in queue order) and append them to the processing
queue. The source does not remove them from the queue array. -/
def receiveMessage (s : SQSState) (maxNumberOfMessages : Nat) :
    SQSState × List OrderEventMessage :=
  let messagesToReceive := (availableMessages s).take maxNumberOfMessages
  ({ s with processingQueue := s.processingQueue ++ messagesToReceive },
   messagesToReceive)

/-- Removal of the first processing-queue entry with the given receipt
handle (findIndex followed by splice in the source). -/
def removeFirstByHandle : List OrderEventMessage → String →
    List OrderEventMessage
  | [], _ => []
  | m :: rest, rh =>
      if m.ReceiptHandle == rh then rest
      else m :: removeFirstByHandle rest rh

/-- OrderSQSService.deleteMessage: throws when no processing-queue entry
carries the receipt handle; otherwise removes that entry and adds its
MessageId to the processed set. -/
def deleteMessage (s : SQSState) (receiptHandle : String) :
    Except String SQSState :=
  match s.processingQueue.find? (fun m => m.ReceiptHandle == receiptHandle) with
  | none => .error "Message not found in processing queue"
  | some message =>
      .ok { s with
              processingQueue := removeFirstByHandle s.processingQueue receiptHandle,
              processedMessages := addToSet s.processedMessages message.MessageId }

/-- OrderSQSService.returnMessage: throws when no processing-queue entry
carries the receipt handle; otherwise removes the entry and, since
getRetryCount is below maxRetries, schedules a setTimeout that will push
the message back onto the queue after the chosen delay (the source falls
back to the last delay entry when the index is out of range); the
unreachable else branch would add the id to the processed set. -/
def returnMessage (s : SQSState) (receiptHandle : String) :
    Except String SQSState :=
  match s.processingQueue.find? (fun m => m.ReceiptHandle == receiptHandle) with
  | none => .error "Message not found in processing queue"
  | some message =>
      let s' := { s with
        processingQueue := removeFirstByHandle s.processingQueue receiptHandle }
      let retryCount := getRetryCount message.MessageId
      if retryCount < maxRetries then
        let delay := retryDelays.getD retryCount 15000
        .ok { s' with delayed := s'.delayed ++ [(s.now + delay, message)] }
      else
        .ok { s' with
          processedMessages := addToSet s'.processedMessages message.MessageId }

/-- OrderSQSService.getQueueAttributes: ApproximateNumberOfMessages is
the length of the queue array, ApproximateNumberOfMessagesNotVisible the
length of the processing queue, ApproximateNumberOfMessagesDelayed is
hard-coded 0. -/
def getQueueAttributes (s : SQSState) : Nat × Nat × Nat :=
  (s.queue.length, s.processingQueue.length, 0)

/-- OrderSQSService.purgeQueue: clears queue, processing queue, processed
set and deduplication cache. Pending setTimeout callbacks are not
cancelled by the source, so the delayed list is kept. -/
def purgeQueue (s : SQSState) : SQSState :=
  { s with queue := [], processingQueue := [], processedMessages := [],
           deduplicationCache := [] }

/-- Clock advance to time t: every pending setTimeout whose fire time
has been reached pushes its message onto the queue (in insertion order,
which matches deadline order here because all scheduled delays are
equal). -/
def advanceTo (s : SQSState) (t : Nat) : SQSState :=
  { s with
      now := t,
      queue := s.queue ++ ((s.delayed.filter (fun p => p.1 ≤ t)).map Prod.snd),
      delayed := s.delayed.filter (fun p => !(p.1 ≤ t)) }

/-! ### Consumer side: OrderHandlerService and the collaborators it touches -/

/-- Store mutation applied by OrderService (committed PostgreSQL
transactions): an order creation with its computed total, a status
update, or a deletion. -/
inductive StoreOp where
  | create (totalAmount : ℚ)
  | updateStatus (orderId : String) (status : String)
  | deleteOrder (orderId : String)
  deriving Repr, DecidableEq

/-- Cache invalidation attempt recorded by
CacheService.invalidateOrderCache: the all-order-lists scope (no order
id) or the single-order scope, with a flag telling whether the Redis
calls succeeded. -/
inductive CacheOp where
  | invalidateAll (ok : Bool)
  | invalidateSingle (orderId : String) (ok : Bool)
  deriving Repr, DecidableEq

/-- CacheService.invalidateOrderCache: the whole body is wrapped in
try/catch, which logs Redis errors and swallows them, so the call always
returns; it is modelled as the log entry of the attempt, marked failed
when Redis fails. -/
def invalidateOrderCache (cacheFails : Bool) (orderId : Option String) :
    CacheOp :=
  match orderId with
  | some oid => .invalidateSingle oid (!cacheFails)
  | none => .invalidateAll (!cacheFails)

/-- Oracle for the network collaborators: whether each OrderService
operation succeeds, whether Redis calls fail, and the id the database
assigns to a created order. -/
structure Backend where
  createOk : Bool
  updateOk : Bool
  deleteOk : Bool
  cacheFails : Bool
  dbGeneratedId : String
  deriving Repr, DecidableEq

/-- OrderService.calculateTotalAmount: reduce over the items summing
quantity times unit price, starting from 0. Items are tuples of
product id, product name, quantity, unit price. -/
def calculateTotalAmount (items : List (String × String × Nat × ℚ)) : ℚ :=
  items.foldl (fun total item => total + item.2.2.1 * item.2.2.2) 0

/-- OrderService.createOrder: on success one committed create transaction
with the computed total followed by the invalidateOrderCache(orderId)
call the method itself makes; on failure the transaction is rolled back
and the error rethrown, leaving no committed mutation. -/
def orderServiceCreateOrder (b : Backend)
    (items : List (String × String × Nat × ℚ)) :
    Except String (List StoreOp × List CacheOp) :=
  if b.createOk then
    .ok ([.create (calculateTotalAmount items)],
         [invalidateOrderCache b.cacheFails (some b.dbGeneratedId)])
  else
    .error "Failed to create order"

/-- Status string extracted from the UPDATE event data
(event.data.status in the source; absent fields read as undefined). -/
def statusOf : EventData → String
  | .updateData st => st
  | _ => "undefined"

/-- OrderHandlerService.handleCreateOrder: throws when event.data is
missing, otherwise creates the order through OrderService (which throws
on failure, and whose reduce over orderData.items throws on malformed
data, rolling the transaction back) and then calls
invalidateOrderCache() with the all-order-lists scope. -/
def handleCreateOrder (b : Backend) (event : OrderEvent) :
    Except String (List StoreOp × List CacheOp) :=
  match event.eventData with
  | none => .error "CREATE event missing order data"
  | some d =>
      match d with
      | .createData _ _ items =>
          match orderServiceCreateOrder b items with
          | .ok (so, co) =>
              .ok (so, co ++ [invalidateOrderCache b.cacheFails none])
          | .error e => .error e
      | _ => .error "Failed to create order"

/-- OrderHandlerService.handleUpdateOrder: throws when orderId or
event.data is missing; otherwise OrderService.updateOrderStatus runs the
update (invalidating the single-order scope itself on success) and the
handler invalidates the single-order scope again; a not-found update
makes the handler throw. -/
def handleUpdateOrder (b : Backend) (event : OrderEvent) :
    Except String (List StoreOp × List CacheOp) :=
  match event.orderId with
  | none => .error "UPDATE event missing orderId"
  | some oid =>
      match event.eventData with
      | none => .error "UPDATE event missing update data"
      | some d =>
          if b.updateOk then
            .ok ([.updateStatus oid (statusOf d)],
                 [invalidateOrderCache b.cacheFails (some oid),
                  invalidateOrderCache b.cacheFails (some oid)])
          else
            .error ("Failed to update order " ++ oid)

/-- OrderHandlerService.handleDeleteOrder: throws when orderId is
missing; otherwise OrderService.deleteOrder deletes the row
(invalidating the single-order scope itself on success) and the handler
invalidates the all-order-lists scope; a not-found delete makes the
handler throw. -/
def handleDeleteOrder (b : Backend) (event : OrderEvent) :
    Except String (List StoreOp × List CacheOp) :=
  match event.orderId with
  | none => .error "DELETE event missing orderId"
  | some oid =>
      if b.deleteOk then
        .ok ([.deleteOrder oid],
             [invalidateOrderCache b.cacheFails (some oid),
              invalidateOrderCache b.cacheFails none])
      else
        .error ("Failed to delete order " ++ oid)

/-- Switch over event.type inside OrderHandlerService.processMessage:
CREATE, UPDATE and DELETE dispatch to their handlers; any other type
only logs a warning and produces no store or cache operation. -/
def dispatchEvent (b : Backend) (event : OrderEvent) :
    Except String (List StoreOp × List CacheOp) :=
  if event.type = "CREATE" then handleCreateOrder b event
  else if event.type = "UPDATE" then handleUpdateOrder b event
  else if event.type = "DELETE" then handleDeleteOrder b event
  else .ok ([], [])

/-- Outcome of processing one message: acknowledged (deleteMessage
succeeded), sent back for retry (returnMessage succeeded), or an error
escaping processMessage (caught one level up in processMessages). -/
inductive Outcome where
  | acked
  | sentForRetry
  | errorEscaped (e : String)
  deriving Repr, DecidableEq

/-- Observable result of processing one message: the committed store
mutations, the cache invalidation attempts, and the outcome. -/
structure ProcessResult where
  storeOps : List StoreOp
  cacheOps : List CacheOp
  outcome : Outcome
  deriving Repr, DecidableEq

/-- OrderHandlerService.processMessage: dispatch the event inside try;
on success delete the message from the queue; any thrown error is caught
and the message is returned for retry; an error thrown by deleteMessage
or returnMessage itself escapes (and is caught by processMessages, which
logs it and leaves the state as it was). -/
def processMessage (b : Backend) (s : SQSState) (message : OrderEventMessage) :
    SQSState × ProcessResult :=
  match dispatchEvent b message.Body with
  | .ok (so, co) =>
      match deleteMessage s message.ReceiptHandle with
      | .ok s' => (s', { storeOps := so, cacheOps := co, outcome := .acked })
      | .error _ =>
          match returnMessage s message.ReceiptHandle with
          | .ok s' =>
              (s', { storeOps := so, cacheOps := co, outcome := .sentForRetry })
          | .error e =>
              (s, { storeOps := so, cacheOps := co, outcome := .errorEscaped e })
  | .error _ =>
      match returnMessage s message.ReceiptHandle with
      | .ok s' => (s', { storeOps := [], cacheOps := [], outcome := .sentForRetry })
      | .error e => (s, { storeOps := [], cacheOps := [], outcome := .errorEscaped e })

/-! ### Traces of queue operations

Arbitrary interleavings of the public queue operations (producers calling
sendMessage, the consumer calling receiveMessage / deleteMessage /
returnMessage, the operator calling purgeQueue) together with clock
advances that fire pending setTimeout callbacks. A run records an
observation log used to state whole-execution properties. -/

/-- One invocation of a public queue operation, or a clock advance. -/
inductive QOp where
  | send (event : SendInput)
  | receive (maxNumberOfMessages : Nat)
  | delete (receiptHandle : String)
  | ret (receiptHandle : String)
  | advance (t : Nat)
  | purge
  deriving Repr, DecidableEq

/-- Observation of one operation: a message entering the queue, a send
suppressed by deduplication, the batch returned by a receive, an
acknowledged id, a message id scheduled for retry (or dropped by the
retry-exhausted branch), a failed delete or ret (unknown handle), a
clock advance, or a purge. -/
inductive LogEntry where
  | enqueued (m : OrderEventMessage)
  | suppressed (mid : String)
  | leased (out : List OrderEventMessage)
  | acked (mid : String)
  | retried (mid : String)
  | retryDropped (mid : String)
  | opFailed (e : String)
  | advanced (t : Nat)
  | purged
  deriving Repr, DecidableEq

/-- Effect of one operation on the state, with its observation. -/
def stepOp (s : SQSState) (op : QOp) : SQSState × LogEntry :=
  match op with
  | .send event =>
      ((sendMessage s event).1,
       if isDuplicate s.deduplicationCache event.deduplicationId s.now then
         .suppressed (sendMessage s event).2
       else
         .enqueued (mkMessage event (generateMessageId s.nextNonce)
           (generateReceiptHandle (s.nextNonce + 1)) s.now))
  | .receive maxN =>
      let (s', out) := receiveMessage s maxN
      (s', .leased out)
  | .delete rh =>
      match s.processingQueue.find? (fun m => m.ReceiptHandle == rh) with
      | some m =>
          match deleteMessage s rh with
          | .ok s' => (s', .acked m.MessageId)
          | .error e => (s, .opFailed e)
      | none => (s, .opFailed "Message not found in processing queue")
  | .ret rh =>
      match s.processingQueue.find? (fun m => m.ReceiptHandle == rh) with
      | some m =>
          match returnMessage s rh with
          | .ok s' =>
              if getRetryCount m.MessageId < maxRetries then
                (s', .retried m.MessageId)
              else
                (s', .retryDropped m.MessageId)
          | .error e => (s, .opFailed e)
      | none => (s, .opFailed "Message not found in processing queue")
  | .advance t => (advanceTo s t, .advanced t)
  | .purge => (purgeQueue s, .purged)

/-- Run of a list of operations from a state, accumulating the log in
execution order. -/
def runOps (s : SQSState) : List QOp → SQSState × List LogEntry
  | [] => (s, [])
  | op :: ops =>
      let (s', e) := stepOp s op
      let (s'', log) := runOps s' ops
      (s'', e :: log)

/-- Messages actually placed into the queue during a run, in enqueue
order. -/
def enqList : List LogEntry → List OrderEventMessage
  | [] => []
  | .enqueued m :: rest => m :: enqList rest
  | _ :: rest => enqList rest

/-- Message ids leased during a run, flattened in lease order: the
position of the first occurrence of an id is the (batch, offset) moment
it was first leased. -/
def leaseSeq : List LogEntry → List String
  | [] => []
  | .leased out :: rest => out.map (fun m => m.MessageId) ++ leaseSeq rest
  | _ :: rest => leaseSeq rest

/-- Whether some operation of the run sent the message with the given id
back for retry (including the retry-exhausted branch). -/
def retriedIn (log : List LogEntry) (mid : String) : Bool :=
  log.any (fun e =>
    match e with
    | .retried mid' => mid' == mid
    | .retryDropped mid' => mid' == mid
    | _ => false)

/-- Sequential processing of one leased batch inside
OrderHandlerService.processMessages (for ... of messages). -/
def processBatch (b : Backend) : SQSState → List OrderEventMessage →
    SQSState × List ProcessResult
  | s, [] => (s, [])
  | s, m :: rest =>
      let (s', r) := processMessage b s m
      let (s'', rs) := processBatch b s' rest
      (s'', r :: rs)

/-- One tick of OrderHandlerService.processMessages: receive up to 5
messages and process them in order. -/
def processMessagesTick (b : Backend) (s : SQSState) :
    SQSState × List ProcessResult :=
  let (s', msgs) := receiveMessage s 5
  processBatch b s' msgs

/-- Number of all-order-lists invalidation attempts in a cache log. -/
def countInvalidateAll (l : List CacheOp) : Nat :=
  (l.filter (fun c =>
    match c with
    | .invalidateAll _ => true
    | _ => false)).length

/-- Producer retrying the same enqueue: advance the clock to each listed
time and call sendMessage with the same event (and hence the same
deduplication id) there. -/
def runSendsAt (event : SendInput) : SQSState → List Nat → SQSState
  | s, [] => s
  | s, t :: ts => runSendsAt event (sendMessage (advanceTo s t) event).1 ts

/-- Number of messages in a list bearing the given deduplication id. -/
def countToken (l : List OrderEventMessage) (tok : String) : Nat :=
  (l.filter (fun m => m.AttrDeduplicationId == tok)).length

/-! ### Concrete inputs used by the claims -/

/-- Create event for customer Ada with one item of quantity 2 at unit
price 10. -/
def adaCreateEvent : SendInput :=
  { type := "CREATE", orderId := some "order_ada"
  , eventData := some (.createData "Ada" "ada@example.com"
      [("prod_1", "Widget", 2, 10)])
  , groupId := "orders", deduplicationId := "create_ada_0" }

/-- Backend in which every store operation succeeds and Redis is
healthy. -/
def healthyBackend : Backend :=
  { createOk := true, updateOk := true, deleteOk := true
  , cacheFails := false, dbGeneratedId := "db_order_1" }

/-- Message value produced by enqueueing adaCreateEvent into the fresh
queue at time 0. -/
def adaMessage : OrderEventMessage :=
  mkMessage adaCreateEvent "msg_" "receipt_1" 0

/-! ### Claims -/

/-- C1. Trace on which the spec requires the event to be dropped: the
event is leased and returned for retry maxRetries = 3 consecutive times
and then leased and returned once more. The source never marks it done:
after the fourth consecutive returnMessage the processed set is still
empty, every one of the four returns took the schedule-a-retry branch
(getRetryCount always reports 0, so the retry-exhausted branch is
unreachable), and a fourth redelivery is scheduled. -/
theorem c1_fourth_return_still_schedules_retry :
    (runOps initState [.send adaCreateEvent, .receive 1, .ret "receipt_1",
        .receive 1, .ret "receipt_1", .receive 1, .ret "receipt_1",
        .receive 1, .ret "receipt_1"]).1.processedMessages = [] ∧
    ((runOps initState [.send adaCreateEvent, .receive 1, .ret "receipt_1",
        .receive 1, .ret "receipt_1", .receive 1, .ret "receipt_1",
        .receive 1, .ret "receipt_1"]).2.filter
      (fun e => e == .retried "msg_")).length = 4 ∧
    (runOps initState [.send adaCreateEvent, .receive 1, .ret "receipt_1",
        .receive 1, .ret "receipt_1", .receive 1, .ret "receipt_1",
        .receive 1, .ret "receipt_1"]).1.delayed.map Prod.fst =
      [1000, 1000, 1000, 1000] := by
  refine ⟨rfl, rfl, rfl⟩

/-- C2. Happy-path scenario: enqueue the Ada create event, lease it,
apply it with a healthy backend. The store log is exactly one create
with total 20, the cache log has exactly one all-order-lists
invalidation, the message is acknowledged — but the queue attributes
afterwards report one pending message, not zero, because the
acknowledged message is never removed from the internal queue array
(receiveMessage copies it into the processing queue instead of moving
it). -/
theorem c2_happy_path_attributes_not_zero :
    ((processMessagesTick healthyBackend
        (sendMessage initState adaCreateEvent).1).2.map
      (fun r => r.storeOps)).flatten = [.create 20] ∧
    countInvalidateAll ((processMessagesTick healthyBackend
        (sendMessage initState adaCreateEvent).1).2.map
      (fun r => r.cacheOps)).flatten = 1 ∧
    ((processMessagesTick healthyBackend
        (sendMessage initState adaCreateEvent).1).2.map
      (fun r => r.outcome)) = [.acked] ∧
    getQueueAttributes (processMessagesTick healthyBackend
        (sendMessage initState adaCreateEvent).1).1 = (1, 0, 0) := by
  have htotal : calculateTotalAmount [("prod_1", "Widget", 2, 10)] = 20 := by
    simp only [calculateTotalAmount, List.foldl]
    norm_num
  have hflat : ((processMessagesTick healthyBackend
        (sendMessage initState adaCreateEvent).1).2.map
      (fun r => r.storeOps)).flatten =
      [.create (calculateTotalAmount [("prod_1", "Widget", 2, 10)])] := rfl
  refine ⟨by rw [hflat, htotal], by decide, by decide, by decide⟩

/-- C3 counterexample. Acknowledging with a lease handle that was never
issued is not a no-op success: deleteMessage and returnMessage both
throw the not-found error. -/
theorem c3_unknown_lease_throws_cex :
    deleteMessage initState "receipt_unknown" =
      .error "Message not found in processing queue" ∧
    returnMessage initState "receipt_unknown" =
      .error "Message not found in processing queue" := by
  refine ⟨rfl, rfl⟩

/-- C3 amended. For every lease handle unknown to the queue (no
processing-queue entry carries it), acknowledge and returnForRetry throw
the not-found error instead of mutating anything, and the consumer wraps
every such call: processMessage hands back the state unchanged with the
error recorded as escaped (processMessages catches and logs it), so the
process does not crash. -/
theorem c3_unknown_lease_throws_state_unchanged (s : SQSState) (rh : String)
    (h : s.processingQueue.find? (fun m => m.ReceiptHandle == rh) = none) :
    deleteMessage s rh = .error "Message not found in processing queue" ∧
    returnMessage s rh = .error "Message not found in processing queue" ∧
    ∀ (b : Backend) (msg : OrderEventMessage), msg.ReceiptHandle = rh →
      (processMessage b s msg).1 = s ∧
      ∃ e, (processMessage b s msg).2.outcome = .errorEscaped e := by
  have hdel : deleteMessage s rh = .error "Message not found in processing queue" := by
    unfold deleteMessage
    rw [h]
  have hret : returnMessage s rh = .error "Message not found in processing queue" := by
    unfold returnMessage
    rw [h]
  refine ⟨hdel, hret, ?_⟩
  intro b msg hmsg
  unfold processMessage
  rw [hmsg, hdel, hret]
  cases dispatchEvent b msg.Body with
  | ok v =>
      cases v with
      | mk so co => exact ⟨rfl, ⟨_, rfl⟩⟩
  | error e => exact ⟨rfl, ⟨_, rfl⟩⟩

/-- C3 witness: the amended statement applied to the fresh queue and a
concrete unknown handle. -/
theorem c3_unknown_lease_witness :
    deleteMessage initState "receipt_unknown_w" =
      .error "Message not found in processing queue" ∧
    returnMessage initState "receipt_unknown_w" =
      .error "Message not found in processing queue" :=
  ⟨(c3_unknown_lease_throws_state_unchanged initState "receipt_unknown_w" rfl).1,
   (c3_unknown_lease_throws_state_unchanged initState "receipt_unknown_w" rfl).2.1⟩

/-- C4. Trace refuting both parts of the claim: the event is enqueued,
leased (handle receipt_1) and returned for retry; without any clock
advance (the 1000 ms backoff has not begun to elapse, the clock is still
0 and the scheduled re-queue is still pending) the very next receive
leases the event again — its original entry was never removed from the
queue array — and the new lease carries the same handle receipt_1. -/
theorem c4_returned_event_releasable_at_once_same_handle :
    (runOps initState [.send adaCreateEvent, .receive 1, .ret "receipt_1",
        .receive 1]).2 =
      [.enqueued adaMessage, .leased [adaMessage], .retried "msg_",
       .leased [adaMessage]] ∧
    (runOps initState [.send adaCreateEvent, .receive 1, .ret "receipt_1",
        .receive 1]).1.now = 0 ∧
    (runOps initState [.send adaCreateEvent, .receive 1, .ret "receipt_1",
        .receive 1]).1.delayed = [(1000, adaMessage)] ∧
    adaMessage.ReceiptHandle = "receipt_1" := by
  refine ⟨rfl, rfl, rfl, rfl⟩

/-- C6. Trace refuting the at-most-one-in-flight invariant: after the
event is leased and returned once, its scheduled re-queue fires while
its original entry is still in the queue array, so the queue holds two
entries with the same id; a single receive of up to 2 messages then
returns the same event twice and leaves two in-flight copies of id
msg_0. -/
theorem c6_single_receive_returns_event_twice :
    (runOps initState [.send adaCreateEvent, .receive 1, .ret "receipt_1",
        .advance 1000, .receive 2]).2 =
      [.enqueued adaMessage, .leased [adaMessage], .retried "msg_",
       .advanced 1000, .leased [adaMessage, adaMessage]] ∧
    (runOps initState [.send adaCreateEvent, .receive 1, .ret "receipt_1",
        .advance 1000, .receive 2]).1.processingQueue.map
      (fun m => m.MessageId) = ["msg_", "msg_"] := by
  refine ⟨rfl, rfl⟩

/-- Status-update event sharing the orders group with the Ada create
event. -/
def statusUpdateEvent : SendInput :=
  { type := "UPDATE", orderId := some "order_1"
  , eventData := some (.updateData "PROCESSING")
  , groupId := "orders", deduplicationId := "update_order_1_0" }

/-- Order-deletion event for the same order. -/
def deleteOrderEvent : SendInput :=
  { type := "DELETE", orderId := some "order_1"
  , eventData := some .emptyData
  , groupId := "orders", deduplicationId := "delete_order_1_0" }

/-- Message value produced by enqueueing statusUpdateEvent first into a
fresh queue at time 0. -/
def updateFirstMessage : OrderEventMessage :=
  mkMessage statusUpdateEvent "msg_" "receipt_1" 0

/-- Message value produced by enqueueing deleteOrderEvent first into a
fresh queue at time 0. -/
def deleteFirstMessage : OrderEventMessage :=
  mkMessage deleteOrderEvent "msg_" "receipt_1" 0

/-- C8. For every backend in which every Redis call fails, and every
leased message whose handle is in the processing queue and whose Order
Store mutation succeeds — a CREATE with well-formed data, an UPDATE with
orderId and data present, or a DELETE with orderId present — the
committed store mutation is kept in the store log (nothing rolls it
back), every cache invalidation attempt of the processing step is merely
recorded as failed and attempted exactly once (never retried), and the
message is still acknowledged (outcome acked, its id added to the
processed set), not sent to the retry path. -/
theorem c8_cache_failure_logged_event_still_acked
    (b : Backend) (s : SQSState) (msg m0 : OrderEventMessage)
    (hf : b.cacheFails = true)
    (hfound : s.processingQueue.find?
      (fun m => m.ReceiptHandle == msg.ReceiptHandle) = some m0) :
    (∀ (customerName customerEmail : String)
        (items : List (String × String × Nat × ℚ)),
      b.createOk = true →
      msg.Body.type = "CREATE" →
      msg.Body.eventData =
        some (.createData customerName customerEmail items) →
      (processMessage b s msg).2.outcome = .acked ∧
      (processMessage b s msg).2.storeOps =
        [.create (calculateTotalAmount items)] ∧
      (processMessage b s msg).2.cacheOps =
        [.invalidateSingle b.dbGeneratedId false, .invalidateAll false] ∧
      (processMessage b s msg).1.processedMessages =
        addToSet s.processedMessages m0.MessageId) ∧
    (∀ (oid : String) (d : EventData),
      b.updateOk = true →
      msg.Body.type = "UPDATE" →
      msg.Body.orderId = some oid →
      msg.Body.eventData = some d →
      (processMessage b s msg).2.outcome = .acked ∧
      (processMessage b s msg).2.storeOps =
        [.updateStatus oid (statusOf d)] ∧
      (processMessage b s msg).2.cacheOps =
        [.invalidateSingle oid false, .invalidateSingle oid false] ∧
      (processMessage b s msg).1.processedMessages =
        addToSet s.processedMessages m0.MessageId) ∧
    (∀ oid : String,
      b.deleteOk = true →
      msg.Body.type = "DELETE" →
      msg.Body.orderId = some oid →
      (processMessage b s msg).2.outcome = .acked ∧
      (processMessage b s msg).2.storeOps = [.deleteOrder oid] ∧
      (processMessage b s msg).2.cacheOps =
        [.invalidateSingle oid false, .invalidateAll false] ∧
      (processMessage b s msg).1.processedMessages =
        addToSet s.processedMessages m0.MessageId) := by
  have hdel : deleteMessage s msg.ReceiptHandle =
      .ok { s with
              processingQueue :=
                removeFirstByHandle s.processingQueue msg.ReceiptHandle,
              processedMessages :=
                addToSet s.processedMessages m0.MessageId } := by
    unfold deleteMessage
    rw [hfound]
  refine ⟨?_, ?_, ?_⟩
  · intro customerName customerEmail items hc ht hd
    have hdisp : dispatchEvent b msg.Body =
        .ok ([.create (calculateTotalAmount items)],
             [.invalidateSingle b.dbGeneratedId false,
              .invalidateAll false]) := by
      unfold dispatchEvent handleCreateOrder orderServiceCreateOrder
        invalidateOrderCache
      rw [if_pos ht, hd, hc, hf]
      simp
    unfold processMessage
    rw [hdisp, hdel]
    exact ⟨rfl, rfl, rfl, rfl⟩
  · intro oid d hu ht horder hd
    have hdisp : dispatchEvent b msg.Body =
        .ok ([.updateStatus oid (statusOf d)],
             [.invalidateSingle oid false, .invalidateSingle oid false]) := by
      unfold dispatchEvent handleUpdateOrder invalidateOrderCache
      rw [ht]
      rw [if_neg (by decide : ¬ ("UPDATE" = "CREATE")), if_pos rfl,
        horder, hd, hu, hf]
      simp
    unfold processMessage
    rw [hdisp, hdel]
    exact ⟨rfl, rfl, rfl, rfl⟩
  · intro oid hdl ht horder
    have hdisp : dispatchEvent b msg.Body =
        .ok ([.deleteOrder oid],
             [.invalidateSingle oid false, .invalidateAll false]) := by
      unfold dispatchEvent handleDeleteOrder invalidateOrderCache
      rw [ht]
      rw [if_neg (by decide : ¬ ("DELETE" = "CREATE")),
        if_neg (by decide : ¬ ("DELETE" = "UPDATE")), if_pos rfl,
        horder, hdl, hf]
      simp
    unfold processMessage
    rw [hdisp, hdel]
    exact ⟨rfl, rfl, rfl, rfl⟩

/-- C8 witness: three concrete runs with Redis down — a successful
create, status update and delete, each leased from a fresh queue — are
all acknowledged with their mutation kept and their invalidation
attempts logged as failed. -/
theorem c8_cache_failure_witness :
    ((processMessage
        { createOk := true, updateOk := true, deleteOk := true,
          cacheFails := true, dbGeneratedId := "db_order_1" }
        (receiveMessage (sendMessage initState adaCreateEvent).1 5).1
        adaMessage).2.outcome = .acked ∧
      (processMessage
        { createOk := true, updateOk := true, deleteOk := true,
          cacheFails := true, dbGeneratedId := "db_order_1" }
        (receiveMessage (sendMessage initState adaCreateEvent).1 5).1
        adaMessage).2.storeOps =
        [.create (calculateTotalAmount [("prod_1", "Widget", 2, 10)])] ∧
      (processMessage
        { createOk := true, updateOk := true, deleteOk := true,
          cacheFails := true, dbGeneratedId := "db_order_1" }
        (receiveMessage (sendMessage initState adaCreateEvent).1 5).1
        adaMessage).2.cacheOps =
        [.invalidateSingle "db_order_1" false, .invalidateAll false]) ∧
    ((processMessage
        { createOk := true, updateOk := true, deleteOk := true,
          cacheFails := true, dbGeneratedId := "db_order_1" }
        (receiveMessage (sendMessage initState statusUpdateEvent).1 5).1
        updateFirstMessage).2.outcome = .acked ∧
      (processMessage
        { createOk := true, updateOk := true, deleteOk := true,
          cacheFails := true, dbGeneratedId := "db_order_1" }
        (receiveMessage (sendMessage initState statusUpdateEvent).1 5).1
        updateFirstMessage).2.storeOps =
        [.updateStatus "order_1" "PROCESSING"] ∧
      (processMessage
        { createOk := true, updateOk := true, deleteOk := true,
          cacheFails := true, dbGeneratedId := "db_order_1" }
        (receiveMessage (sendMessage initState statusUpdateEvent).1 5).1
        updateFirstMessage).2.cacheOps =
        [.invalidateSingle "order_1" false,
         .invalidateSingle "order_1" false]) ∧
    ((processMessage
        { createOk := true, updateOk := true, deleteOk := true,
          cacheFails := true, dbGeneratedId := "db_order_1" }
        (receiveMessage (sendMessage initState deleteOrderEvent).1 5).1
        deleteFirstMessage).2.outcome = .acked ∧
      (processMessage
        { createOk := true, updateOk := true, deleteOk := true,
          cacheFails := true, dbGeneratedId := "db_order_1" }
        (receiveMessage (sendMessage initState deleteOrderEvent).1 5).1
        deleteFirstMessage).2.storeOps = [.deleteOrder "order_1"] ∧
      (processMessage
        { createOk := true, updateOk := true, deleteOk := true,
          cacheFails := true, dbGeneratedId := "db_order_1" }
        (receiveMessage (sendMessage initState deleteOrderEvent).1 5).1
        deleteFirstMessage).2.cacheOps =
        [.invalidateSingle "order_1" false, .invalidateAll false]) := by
  have hC := (c8_cache_failure_logged_event_still_acked
      { createOk := true, updateOk := true, deleteOk := true,
        cacheFails := true, dbGeneratedId := "db_order_1" }
      (receiveMessage (sendMessage initState adaCreateEvent).1 5).1
      adaMessage adaMessage rfl rfl).1
    "Ada" "ada@example.com" [("prod_1", "Widget", 2, 10)] rfl rfl rfl
  have hU := (c8_cache_failure_logged_event_still_acked
      { createOk := true, updateOk := true, deleteOk := true,
        cacheFails := true, dbGeneratedId := "db_order_1" }
      (receiveMessage (sendMessage initState statusUpdateEvent).1 5).1
      updateFirstMessage updateFirstMessage rfl rfl).2.1
    "order_1" (.updateData "PROCESSING") rfl rfl rfl rfl
  have hD := (c8_cache_failure_logged_event_still_acked
      { createOk := true, updateOk := true, deleteOk := true,
        cacheFails := true, dbGeneratedId := "db_order_1" }
      (receiveMessage (sendMessage initState deleteOrderEvent).1 5).1
      deleteFirstMessage deleteFirstMessage rfl rfl).2.2
    "order_1" rfl rfl rfl
  exact ⟨⟨hC.1, hC.2.1, hC.2.2.1⟩, ⟨hU.1, hU.2.1, hU.2.2.1⟩,
    ⟨hD.1, hD.2.1, hD.2.2.1⟩⟩

/-- C9. For every leased message whose event type is none of CREATE,
UPDATE or DELETE and whose handle is in the processing queue, the
dispatch switch falls through its default branch (a warning only): no
store mutation and no cache invalidation happens, and the message is
acknowledged — removed from the processing queue with its id added to
the processed set — rather than retried. -/
theorem c9_unknown_event_type_acked_without_effects
    (b : Backend) (s : SQSState) (msg m0 : OrderEventMessage)
    (ht1 : ¬ msg.Body.type = "CREATE")
    (ht2 : ¬ msg.Body.type = "UPDATE")
    (ht3 : ¬ msg.Body.type = "DELETE")
    (hfound : s.processingQueue.find?
      (fun m => m.ReceiptHandle == msg.ReceiptHandle) = some m0) :
    (processMessage b s msg).2.outcome = .acked ∧
    (processMessage b s msg).2.storeOps = [] ∧
    (processMessage b s msg).2.cacheOps = [] ∧
    (processMessage b s msg).1 =
      { s with
          processingQueue :=
            removeFirstByHandle s.processingQueue msg.ReceiptHandle,
          processedMessages :=
            addToSet s.processedMessages m0.MessageId } := by
  have hdisp : dispatchEvent b msg.Body = .ok ([], []) := by
    unfold dispatchEvent
    rw [if_neg ht1, if_neg ht2, if_neg ht3]
  have hdel : deleteMessage s msg.ReceiptHandle =
      .ok { s with
              processingQueue :=
                removeFirstByHandle s.processingQueue msg.ReceiptHandle,
              processedMessages :=
                addToSet s.processedMessages m0.MessageId } := by
    unfold deleteMessage
    rw [hfound]
  unfold processMessage
  rw [hdisp, hdel]
  exact ⟨rfl, rfl, rfl, rfl⟩

/-- Event of a type the dispatch switch does not know. -/
def bogusEvent : SendInput :=
  { type := "ARCHIVE", orderId := some "order_x", eventData := none
  , groupId := "orders", deduplicationId := "archive_x_0" }

/-- Message value produced by enqueueing bogusEvent into the fresh queue
at time 0. -/
def bogusMessage : OrderEventMessage :=
  mkMessage bogusEvent "msg_" "receipt_1" 0

/-- C9 witness: the unknown-type message, leased from a fresh queue, is
acknowledged with empty store and cache logs. -/
theorem c9_unknown_event_type_witness :
    (processMessage healthyBackend
        (receiveMessage (sendMessage initState bogusEvent).1 5).1
        bogusMessage).2.outcome = .acked ∧
    (processMessage healthyBackend
        (receiveMessage (sendMessage initState bogusEvent).1 5).1
        bogusMessage).2.storeOps = [] ∧
    (processMessage healthyBackend
        (receiveMessage (sendMessage initState bogusEvent).1 5).1
        bogusMessage).2.cacheOps = [] :=
  ⟨(c9_unknown_event_type_acked_without_effects healthyBackend
      (receiveMessage (sendMessage initState bogusEvent).1 5).1
      bogusMessage bogusMessage
      (by decide) (by decide) (by decide) rfl).1,
   (c9_unknown_event_type_acked_without_effects healthyBackend
      (receiveMessage (sendMessage initState bogusEvent).1 5).1
      bogusMessage bogusMessage
      (by decide) (by decide) (by decide) rfl).2.1,
   (c9_unknown_event_type_acked_without_effects healthyBackend
      (receiveMessage (sendMessage initState bogusEvent).1 5).1
      bogusMessage bogusMessage
      (by decide) (by decide) (by decide) rfl).2.2.1⟩

/-! ### Shared lemmas about the queue containers -/

theorem lookup_mapSet_self (m : List (String × Nat)) (k : String) (v : Nat) :
    (mapSet m k v).lookup k = some v := by
  induction m with
  | nil => simp [mapSet, List.lookup]
  | cons p rest ih =>
      obtain ⟨k', v'⟩ := p
      by_cases h : k' = k
      · subst h
        simp [mapSet, List.lookup]
      · have hb : (k == k') = false := by
          simp only [beq_eq_false_iff_ne, ne_eq]
          exact fun he => h he.symm
        simp [mapSet, h, List.lookup, hb, ih]

theorem countToken_append (l1 l2 : List OrderEventMessage) (tok : String) :
    countToken (l1 ++ l2) tok = countToken l1 tok + countToken l2 tok := by
  simp [countToken, List.filter_append]

theorem countToken_fired_le (l : List (Nat × OrderEventMessage))
    (p : Nat × OrderEventMessage → Bool) (tok : String) :
    countToken ((l.filter p).map Prod.snd) tok ≤
      countToken (l.map Prod.snd) tok := by
  have h1 : ((l.filter p).map Prod.snd).Sublist (l.map Prod.snd) :=
    (List.filter_sublist l).map Prod.snd
  exact (h1.filter (fun m => m.AttrDeduplicationId == tok)).length_le

theorem suppressed_sends_keep_count (event : SendInput) (t0 : Nat)
    (ts : List Nat) :
    ∀ s : SQSState,
    s.deduplicationCache.lookup event.deduplicationId = some t0 →
    (∀ t ∈ ts, t < t0 + deduplicationWindowMs) →
    countToken (s.delayed.map Prod.snd) event.deduplicationId = 0 →
    countToken (runSendsAt event s ts).queue event.deduplicationId =
      countToken s.queue event.deduplicationId := by
  induction ts with
  | nil => intro s _ _ _; rfl
  | cons t ts ih =>
      intro s hlook hwin hdel
      have hdup : isDuplicate (advanceTo s t).deduplicationCache
          event.deduplicationId (advanceTo s t).now = true := by
        show isDuplicate s.deduplicationCache event.deduplicationId t = true
        unfold isDuplicate
        rw [hlook]
        simp only [decide_eq_true_eq]
        have hw : 0 < deduplicationWindowMs := by decide
        have := hwin t (by simp)
        omega
      have hsend : (sendMessage (advanceTo s t) event).1 =
          { advanceTo s t with nextNonce := (advanceTo s t).nextNonce + 1 } := by
        unfold sendMessage
        rw [hdup]
        rfl
      have hstep : runSendsAt event s (t :: ts) =
          runSendsAt event (sendMessage (advanceTo s t) event).1 ts := rfl
      rw [hstep, hsend]
      have hdel' : countToken
          (({ advanceTo s t with
              nextNonce := (advanceTo s t).nextNonce + 1 }).delayed.map Prod.snd)
          event.deduplicationId = 0 := by
        have hle := countToken_fired_le s.delayed
          (fun p => !(p.1 ≤ t)) event.deduplicationId
        show countToken ((s.delayed.filter (fun p => !(p.1 ≤ t))).map Prod.snd)
          event.deduplicationId = 0
        omega
      have hrec := ih { advanceTo s t with
          nextNonce := (advanceTo s t).nextNonce + 1 }
        (by show s.deduplicationCache.lookup event.deduplicationId = some t0
            exact hlook)
        (fun u hu => hwin u (by simp [hu]))
        hdel'
      rw [hrec]
      show countToken (s.queue ++
        ((s.delayed.filter (fun p => p.1 ≤ t)).map Prod.snd))
          event.deduplicationId = countToken s.queue event.deduplicationId
      rw [countToken_append]
      have hle := countToken_fired_le s.delayed
        (fun p => p.1 ≤ t) event.deduplicationId
      omega

/-- C7. For every starting state in which the deduplication id of the
event is unrecorded and no queued or delayed message bears it, a
sequence of enqueues of that event — the first at time t0, all later
ones before t0 + deduplicationWindowMs, i.e. within the window of the
token recording made by the first enqueue (suppressed enqueues do not
refresh it) — creates exactly one pending record bearing that id; and
every suppressed enqueue returns the same outcome shape as a successful
one (a fresh MessageId) while changing nothing but the nonce supply. -/
theorem c7_dedup_window_at_most_one_pending
    (s : SQSState) (event : SendInput) (t0 : Nat) (ts : List Nat)
    (hlook : s.deduplicationCache.lookup event.deduplicationId = none)
    (hq : countToken s.queue event.deduplicationId = 0)
    (hd : countToken (s.delayed.map Prod.snd) event.deduplicationId = 0)
    (hwin : ∀ t ∈ ts, t < t0 + deduplicationWindowMs) :
    countToken (runSendsAt event s (t0 :: ts)).queue event.deduplicationId
      = 1 ∧
    ∀ s' : SQSState,
      isDuplicate s'.deduplicationCache event.deduplicationId s'.now = true →
      sendMessage s' event =
        ({ s' with nextNonce := s'.nextNonce + 1 },
         generateMessageId s'.nextNonce) := by
  constructor
  · have hdup0 : isDuplicate (advanceTo s t0).deduplicationCache
        event.deduplicationId (advanceTo s t0).now = false := by
      show isDuplicate s.deduplicationCache event.deduplicationId t0 = false
      unfold isDuplicate
      rw [hlook]
    have hsend0 : (sendMessage (advanceTo s t0) event).1 =
        { advanceTo s t0 with
            nextNonce := (advanceTo s t0).nextNonce + 2,
            queue := (advanceTo s t0).queue ++
              [mkMessage event (generateMessageId (advanceTo s t0).nextNonce)
                (generateReceiptHandle ((advanceTo s t0).nextNonce + 1))
                (advanceTo s t0).now],
            deduplicationCache :=
              mapSet (advanceTo s t0).deduplicationCache
                event.deduplicationId (advanceTo s t0).now } := by
      unfold sendMessage
      rw [hdup0]
      rfl
    have hstep : runSendsAt event s (t0 :: ts) =
        runSendsAt event (sendMessage (advanceTo s t0) event).1 ts := rfl
    rw [hstep, hsend0]
    have hq1 : countToken ((advanceTo s t0).queue ++
        [mkMessage event (generateMessageId (advanceTo s t0).nextNonce)
          (generateReceiptHandle ((advanceTo s t0).nextNonce + 1))
          (advanceTo s t0).now]) event.deduplicationId = 1 := by
      rw [countToken_append]
      have hqa : countToken (advanceTo s t0).queue event.deduplicationId = 0 := by
        show countToken (s.queue ++
          ((s.delayed.filter (fun p => p.1 ≤ t0)).map Prod.snd))
            event.deduplicationId = 0
        rw [countToken_append]
        have hle := countToken_fired_le s.delayed
          (fun p => p.1 ≤ t0) event.deduplicationId
        omega
      have hm : countToken
          [mkMessage event (generateMessageId (advanceTo s t0).nextNonce)
            (generateReceiptHandle ((advanceTo s t0).nextNonce + 1))
            (advanceTo s t0).now] event.deduplicationId = 1 := by
        simp [countToken, mkMessage]
      omega
    have hres := suppressed_sends_keep_count event t0 ts
      { advanceTo s t0 with
          nextNonce := (advanceTo s t0).nextNonce + 2,
          queue := (advanceTo s t0).queue ++
            [mkMessage event (generateMessageId (advanceTo s t0).nextNonce)
              (generateReceiptHandle ((advanceTo s t0).nextNonce + 1))
              (advanceTo s t0).now],
          deduplicationCache :=
            mapSet (advanceTo s t0).deduplicationCache
              event.deduplicationId (advanceTo s t0).now }
      (by show (mapSet s.deduplicationCache event.deduplicationId
            t0).lookup event.deduplicationId = some t0
          exact lookup_mapSet_self s.deduplicationCache
            event.deduplicationId t0)
      hwin
      (by show countToken
            ((s.delayed.filter (fun p => !(p.1 ≤ t0))).map Prod.snd)
            event.deduplicationId = 0
          have hle := countToken_fired_le s.delayed
            (fun p => !(p.1 ≤ t0)) event.deduplicationId
          omega)
    rw [hres]
    exact hq1
  · intro s' hdup
    unfold sendMessage
    rw [hdup]
    rfl

/-- C7 witness: three enqueues of the Ada create event at 0 ms, 5 ms and
10 ms leave exactly one pending record for its deduplication id, and the
suppressed second enqueue on the post-first-send state returns a fresh
MessageId while only consuming a nonce. -/
theorem c7_dedup_window_witness :
    countToken (runSendsAt adaCreateEvent initState [0, 5, 10]).queue
      "create_ada_0" = 1 ∧
    sendMessage (sendMessage initState adaCreateEvent).1 adaCreateEvent =
      ({ (sendMessage initState adaCreateEvent).1 with nextNonce := 3 },
       "msg_11") := by
  have h := c7_dedup_window_at_most_one_pending initState adaCreateEvent
    0 [5, 10] rfl rfl rfl (by decide)
  exact ⟨h.1, h.2 (sendMessage initState adaCreateEvent).1 (by decide)⟩


/-! ### Freshness of generated message ids -/

theorem nonceSuffix_injective : Function.Injective nonceSuffix := by
  intro a b h
  have hd : (List.replicate a '1') = (List.replicate b '1') :=
    congrArg String.data h
  have := congrArg List.length hd
  simpa using this

theorem generateMessageId_injective : Function.Injective generateMessageId := by
  intro a b h
  apply nonceSuffix_injective
  have hd : ("msg_" ++ nonceSuffix a).data = ("msg_" ++ nonceSuffix b).data :=
    congrArg String.data h
  rw [String.data_append, String.data_append] at hd
  have : (nonceSuffix a).data = (nonceSuffix b).data :=
    List.append_cancel_left hd
  cases ha : nonceSuffix a
  cases hb : nonceSuffix b
  rw [ha, hb] at this
  simp_all

/-- All message records owned by the queue: pending array, processing
queue, and messages held by pending setTimeout callbacks. -/
def stateMessages (s : SQSState) : List OrderEventMessage :=
  s.queue ++ s.processingQueue ++ s.delayed.map Prod.snd

/-- Every message record owned by the queue got its id from a nonce
below the current supply. -/
def NonceInv (s : SQSState) : Prop :=
  ∀ m ∈ stateMessages s, ∃ k, k < s.nextNonce ∧ m.MessageId = generateMessageId k

/-- No message record owned by the queue bears the given id. -/
def IdNever (mid : String) (s : SQSState) : Prop :=
  ∀ m ∈ stateMessages s, m.MessageId ≠ mid

theorem mem_removeFirstByHandle (l : List OrderEventMessage) (rh : String)
    (m : OrderEventMessage) : m ∈ removeFirstByHandle l rh → m ∈ l := by
  induction l with
  | nil => intro h; simpa [removeFirstByHandle] using h
  | cons x rest ih =>
      intro h
      by_cases hx : (x.ReceiptHandle == rh) = true
      · simp only [removeFirstByHandle] at h
        rw [if_pos hx] at h
        exact List.mem_cons_of_mem x h
      · simp only [removeFirstByHandle] at h
        rw [if_neg hx] at h
        rcases List.mem_cons.mp h with h | h
        · simp [h]
        · exact List.mem_cons_of_mem x (ih h)

theorem stepOp_keeps_fresh (k : Nat) (s : SQSState) (op : QOp)
    (hk : k < s.nextNonce) (hinv : NonceInv s)
    (habs : IdNever (generateMessageId k) s) :
    k < (stepOp s op).1.nextNonce ∧ NonceInv (stepOp s op).1 ∧
      IdNever (generateMessageId k) (stepOp s op).1 := by
  cases op with
  | send event =>
      by_cases hdup : isDuplicate s.deduplicationCache
          event.deduplicationId s.now = true
      · have hs : (stepOp s (.send event)).1 =
            { s with nextNonce := s.nextNonce + 1 } := by
          show (sendMessage s event).1 = _
          unfold sendMessage
          rw [hdup]
          rfl
        rw [hs]
        refine ⟨Nat.lt_succ_of_lt hk, ?_, ?_⟩
        · intro m hm
          obtain ⟨j, hj, hid⟩ := hinv m hm
          exact ⟨j, Nat.lt_succ_of_lt hj, hid⟩
        · intro m hm
          exact habs m hm
      · have hs : (stepOp s (.send event)).1 =
            { s with
                nextNonce := s.nextNonce + 2,
                queue := s.queue ++
                  [mkMessage event (generateMessageId s.nextNonce)
                    (generateReceiptHandle (s.nextNonce + 1)) s.now],
                deduplicationCache :=
                  mapSet s.deduplicationCache event.deduplicationId s.now } := by
          show (sendMessage s event).1 = _
          unfold sendMessage
          rw [if_neg hdup]
        rw [hs]
        have hmem : ∀ m, m ∈ stateMessages
            { s with
                nextNonce := s.nextNonce + 2,
                queue := s.queue ++
                  [mkMessage event (generateMessageId s.nextNonce)
                    (generateReceiptHandle (s.nextNonce + 1)) s.now],
                deduplicationCache :=
                  mapSet s.deduplicationCache event.deduplicationId s.now } →
            m ∈ stateMessages s ∨
              m = mkMessage event (generateMessageId s.nextNonce)
                (generateReceiptHandle (s.nextNonce + 1)) s.now := by
          intro m hm
          simp only [stateMessages, List.mem_append, List.mem_singleton] at hm
          simp only [stateMessages, List.mem_append]
          tauto
        refine ⟨by show k < s.nextNonce + 2; omega, ?_, ?_⟩
        · intro m hm
          rcases hmem m hm with h | h
          · obtain ⟨j, hj, hid⟩ := hinv m h
            exact ⟨j, by show j < s.nextNonce + 2; omega, hid⟩
          · exact ⟨s.nextNonce, by show s.nextNonce < s.nextNonce + 2; omega,
              by rw [h]; rfl⟩
        · intro m hm
          rcases hmem m hm with h | h
          · exact habs m h
          · rw [h]
            show generateMessageId s.nextNonce ≠ generateMessageId k
            exact fun he => absurd (generateMessageId_injective he) (by omega)
  | receive maxN =>
      have hs : (stepOp s (.receive maxN)).1 =
          { s with processingQueue := s.processingQueue ++
              (availableMessages s).take maxN } := rfl
      rw [hs]
      have hmem : ∀ m, m ∈ stateMessages
          { s with processingQueue := s.processingQueue ++
              (availableMessages s).take maxN } → m ∈ stateMessages s := by
        intro m hm
        simp only [stateMessages, List.mem_append] at hm
        simp only [stateMessages, List.mem_append]
        rcases hm with (h | (h | h)) | h
        · exact Or.inl (Or.inl h)
        · exact Or.inl (Or.inr h)
        · have : m ∈ availableMessages s := List.mem_of_mem_take h
          exact Or.inl (Or.inl (List.mem_of_mem_filter this))
        · exact Or.inr h
      exact ⟨hk, fun m hm => hinv m (hmem m hm), fun m hm => habs m (hmem m hm)⟩
  | delete rh =>
      rcases hf : s.processingQueue.find? (fun m => m.ReceiptHandle == rh)
        with _ | m0
      · have hs : (stepOp s (.delete rh)).1 = s := by
          simp only [stepOp, hf]
        rw [hs]
        exact ⟨hk, hinv, habs⟩
      · have hs : (stepOp s (.delete rh)).1 =
            { s with
                processingQueue := removeFirstByHandle s.processingQueue rh,
                processedMessages :=
                  addToSet s.processedMessages m0.MessageId } := by
          simp only [stepOp, deleteMessage, hf]
        rw [hs]
        have hmem : ∀ m, m ∈ stateMessages
            { s with
                processingQueue := removeFirstByHandle s.processingQueue rh,
                processedMessages :=
                  addToSet s.processedMessages m0.MessageId } →
            m ∈ stateMessages s := by
          intro m hm
          simp only [stateMessages, List.mem_append] at hm
          simp only [stateMessages, List.mem_append]
          rcases hm with (h | h) | h
          · exact Or.inl (Or.inl h)
          · exact Or.inl (Or.inr (mem_removeFirstByHandle _ _ _ h))
          · exact Or.inr h
        exact ⟨hk, fun m hm => hinv m (hmem m hm), fun m hm => habs m (hmem m hm)⟩
  | ret rh =>
      rcases hf : s.processingQueue.find? (fun m => m.ReceiptHandle == rh)
        with _ | m0
      · have hs : (stepOp s (.ret rh)).1 = s := by
          simp only [stepOp, hf]
        rw [hs]
        exact ⟨hk, hinv, habs⟩
      · have hs : (stepOp s (.ret rh)).1 =
            { s with
                processingQueue := removeFirstByHandle s.processingQueue rh,
                delayed := s.delayed ++ [(s.now + 1000, m0)] } := by
          simp only [stepOp, returnMessage, hf, getRetryCount, maxRetries,
            retryDelays]
          rfl
        rw [hs]
        have hm0 : m0 ∈ s.processingQueue := List.mem_of_find?_eq_some hf
        have hmem : ∀ m, m ∈ stateMessages
            { s with
                processingQueue := removeFirstByHandle s.processingQueue rh,
                delayed := s.delayed ++ [(s.now + 1000, m0)] } →
            m ∈ stateMessages s := by
          intro m hm
          simp only [stateMessages, List.mem_append, List.map_append,
            List.map_cons, List.map_nil, List.mem_singleton] at hm
          simp only [stateMessages, List.mem_append]
          rcases hm with (h | h) | (h | h)
          · exact Or.inl (Or.inl h)
          · exact Or.inl (Or.inr (mem_removeFirstByHandle _ _ _ h))
          · exact Or.inr h
          · rw [h]
            exact Or.inl (Or.inr hm0)
        exact ⟨hk, fun m hm => hinv m (hmem m hm), fun m hm => habs m (hmem m hm)⟩
  | advance t =>
      have hs : (stepOp s (.advance t)).1 = advanceTo s t := rfl
      rw [hs]
      have hmem : ∀ m, m ∈ stateMessages (advanceTo s t) →
          m ∈ stateMessages s := by
        intro m hm
        simp only [stateMessages, advanceTo, List.mem_append] at hm
        simp only [stateMessages, List.mem_append]
        rcases hm with ((h | h) | h) | h
        · exact Or.inl (Or.inl h)
        · rcases List.mem_map.mp h with ⟨p, hp, hpm⟩
          exact Or.inr (List.mem_map.mpr ⟨p, List.mem_of_mem_filter hp, hpm⟩)
        · exact Or.inl (Or.inr h)
        · rcases List.mem_map.mp h with ⟨p, hp, hpm⟩
          exact Or.inr (List.mem_map.mpr ⟨p, List.mem_of_mem_filter hp, hpm⟩)
      exact ⟨hk, fun m hm => hinv m (hmem m hm), fun m hm => habs m (hmem m hm)⟩
  | purge =>
      have hs : (stepOp s .purge).1 = purgeQueue s := rfl
      rw [hs]
      have hmem : ∀ m, m ∈ stateMessages (purgeQueue s) →
          m ∈ stateMessages s := by
        intro m hm
        simp only [stateMessages, purgeQueue, List.mem_append,
          List.not_mem_nil] at hm
        simp only [stateMessages, List.mem_append]
        tauto
      exact ⟨hk, fun m hm => hinv m (hmem m hm), fun m hm => habs m (hmem m hm)⟩

theorem runOps_keeps_fresh (k : Nat) :
    ∀ (ops : List QOp) (s : SQSState),
    k < s.nextNonce → NonceInv s → IdNever (generateMessageId k) s →
    IdNever (generateMessageId k) (runOps s ops).1 := by
  intro ops
  induction ops with
  | nil => intro s _ _ habs; exact habs
  | cons op ops ih =>
      intro s hk hinv habs
      have hstep := stepOp_keeps_fresh k s op hk hinv habs
      have hfst : (runOps s (op :: ops)).1 = (runOps (stepOp s op).1 ops).1 := rfl
      rw [hfst]
      exact ih (stepOp s op).1 hstep.1 hstep.2.1 hstep.2.2

theorem c10_suppressed_enqueue_fresh_unused_id
    (s : SQSState) (event : SendInput)
    (hinv : NonceInv s)
    (hdup : isDuplicate s.deduplicationCache event.deduplicationId s.now
      = true) :
    (sendMessage s event).2 = generateMessageId s.nextNonce ∧
    (∀ m ∈ s.queue, m.MessageId ≠ (sendMessage s event).2) ∧
    (sendMessage s event).1.queue = s.queue ∧
    (sendMessage s event).1.deduplicationCache = s.deduplicationCache ∧
    (∀ ops : List QOp,
      ∀ m ∈ stateMessages (runOps (sendMessage s event).1 ops).1,
        m.MessageId ≠ (sendMessage s event).2) := by
  have hs : sendMessage s event =
      ({ s with nextNonce := s.nextNonce + 1 },
       generateMessageId s.nextNonce) := by
    unfold sendMessage
    rw [hdup]
    rfl
  have hne : ∀ m ∈ stateMessages s,
      m.MessageId ≠ generateMessageId s.nextNonce := by
    intro m hm
    obtain ⟨j, hj, hid⟩ := hinv m hm
    rw [hid]
    exact fun he => absurd (generateMessageId_injective he) (by omega)
  refine ⟨by rw [hs], ?_, by rw [hs], by rw [hs], ?_⟩
  · intro m hm
    rw [hs]
    exact hne m (by simp [stateMessages, List.mem_append, hm])
  · intro ops m hm
    rw [hs]
    rw [hs] at hm
    refine runOps_keeps_fresh s.nextNonce ops
      { s with nextNonce := s.nextNonce + 1 }
      (by show s.nextNonce < s.nextNonce + 1; omega)
      (fun m' hm' => by
        obtain ⟨j, hj, hid⟩ := hinv m' hm'
        exact ⟨j, by show j < s.nextNonce + 1; omega, hid⟩)
      (fun m' hm' => hne m' hm') m hm

/-- State reached by enqueueing the Ada create event once into the fresh
queue: one pending message (id msg_, handle receipt_1), its
deduplication id recorded at time 0. -/
def c10Start : SQSState := (sendMessage initState adaCreateEvent).1

/-- C10 witness: re-enqueueing the Ada event on c10Start is suppressed
as a duplicate; it returns the fresh id msg_11 (nonce 2), the queue and
the recorded timestamp are untouched, no queue entry bears msg_11, and
after a further receive / return / clock-advance / receive run still no
message owned by the queue bears msg_11. -/
theorem c10_suppressed_enqueue_witness :
    (sendMessage c10Start adaCreateEvent).2 = "msg_11" ∧
    (∀ m ∈ c10Start.queue, m.MessageId ≠ "msg_11") ∧
    (sendMessage c10Start adaCreateEvent).1.queue = c10Start.queue ∧
    (sendMessage c10Start adaCreateEvent).1.deduplicationCache =
      c10Start.deduplicationCache ∧
    (∀ m ∈ stateMessages (runOps (sendMessage c10Start adaCreateEvent).1
        [.receive 5, .ret "receipt_1", .advance 2000, .receive 5]).1,
      m.MessageId ≠ "msg_11") := by
  have hinv : NonceInv c10Start := by
    intro m hm
    have hm' : m ∈ [adaMessage] := hm
    rw [List.mem_singleton] at hm'
    subst hm'
    exact ⟨0, by decide, rfl⟩
  have h := c10_suppressed_enqueue_fresh_unused_id c10Start adaCreateEvent
    hinv (by decide)
  exact ⟨h.1, h.2.1, h.2.2.1, h.2.2.2.1,
    h.2.2.2.2 [.receive 5, .ret "receipt_1", .advance 2000, .receive 5]⟩


/-! ### Per-group FIFO of the lease order -/

/-- Never retried and never leased so far, as a Boolean predicate on
message ids with respect to a run log. -/
def nrnlB (log : List LogEntry) (mid : String) : Bool :=
  !(retriedIn log mid) && !((leaseSeq log).contains mid)

theorem enqList_append (l1 l2 : List LogEntry) :
    enqList (l1 ++ l2) = enqList l1 ++ enqList l2 := by
  induction l1 with
  | nil => rfl
  | cons e rest ih => cases e <;> simp [enqList, ih]

theorem leaseSeq_append (l1 l2 : List LogEntry) :
    leaseSeq (l1 ++ l2) = leaseSeq l1 ++ leaseSeq l2 := by
  induction l1 with
  | nil => rfl
  | cons e rest ih => cases e <;> simp [leaseSeq, ih]

theorem retriedIn_append (l1 l2 : List LogEntry) (mid : String) :
    retriedIn (l1 ++ l2) mid = (retriedIn l1 mid || retriedIn l2 mid) := by
  simp [retriedIn, List.any_append]

theorem contains_iff_mem (l : List String) (x : String) :
    l.contains x = true ↔ x ∈ l := by
  show l.elem x = true ↔ x ∈ l
  exact List.elem_iff

theorem nrnlB_of_append (log ext : List LogEntry) (mid : String)
    (h : nrnlB (log ++ ext) mid = true) : nrnlB log mid = true := by
  simp only [nrnlB, Bool.and_eq_true, Bool.not_eq_true'] at h ⊢
  obtain ⟨h1, h2⟩ := h
  rw [retriedIn_append] at h1
  rw [leaseSeq_append] at h2
  constructor
  · exact (Bool.or_eq_false_iff.mp h1).1
  · rcases hc : (leaseSeq log).contains mid with _ | _
    · rfl
    · exfalso
      have hm : mid ∈ leaseSeq log := (contains_iff_mem _ _).mp hc
      have hm2 : mid ∈ leaseSeq log ++ leaseSeq ext :=
        List.mem_append_left _ hm
      have := (contains_iff_mem _ _).mpr hm2
      rw [h2] at this
      exact Bool.false_ne_true this

theorem pair_sublist_mem_left {α : Type} {a b : α} {l : List α}
    (h : List.Sublist [a, b] l) : a ∈ l :=
  h.subset (by simp)

theorem pair_sublist_mem_right {α : Type} {a b : α} {l : List α}
    (h : List.Sublist [a, b] l) : b ∈ l :=
  h.subset (by simp)

theorem pair_sublist_snoc {α : Type} {a b m : α} {l : List α}
    (h : List.Sublist [a, b] (l ++ [m])) :
    List.Sublist [a, b] l ∨ (a ∈ l ∧ b = m) := by
  rcases List.sublist_append_iff.mp h with ⟨l1, l2, heq, hs1, hs2⟩
  cases l2 with
  | nil =>
      left
      rw [List.append_nil] at heq
      exact heq ▸ hs1
  | cons x l2' =>
      have hxm : x = m ∧ l2' = [] := by
        cases hs2 with
        | cons _ h' => cases h'
        | cons₂ _ h' => exact ⟨rfl, List.sublist_nil.mp h'⟩
      obtain ⟨hx, hl2⟩ := hxm
      subst hl2
      cases l1 with
      | nil => simp at heq
      | cons a' l1' =>
          cases l1' with
          | nil =>
              right
              have h1 : a = a' := by
                have := congrArg (fun t => t.headD a) heq
                simpa using this
              have h2 : b = x := by
                have := congrArg (fun t => t.tail.headD b) heq
                simpa using this
              refine ⟨?_, ?_⟩
              · rw [h1]
                exact List.singleton_sublist.mp hs1
              · rw [h2, hx]
          | cons a'' l1'' =>
              exfalso
              have := congrArg List.length heq
              simp at this

theorem pair_ne_of_nodup {α : Type} [DecidableEq α] {a b : α} {l : List α}
    (h : List.Sublist [a, b] l) (hn : l.Nodup) : a ≠ b := by
  intro he
  subst he
  have hc := h.count_le a
  have h2 : List.count a [a, a] = 2 := by simp
  have h1 := List.nodup_iff_count_le_one.mp hn a
  omega

theorem pair_sublist_filter {α : Type} {a b : α} {l : List α}
    {p : α → Bool} (h : List.Sublist [a, b] l)
    (hpa : p a = true) (hpb : p b = true) :
    List.Sublist [a, b] (l.filter p) := by
  have := h.filter p
  rwa [show List.filter p [a, b] = [a, b] by simp [hpa, hpb]] at this

theorem pair_sublist_of_sublist_nodup {α : Type} [DecidableEq α]
    {l L : List α} (hs : l.Sublist L) :
    L.Nodup → ∀ {a b : α}, a ∈ l → b ∈ l → List.Sublist [a, b] L →
      List.Sublist [a, b] l := by
  induction hs with
  | slnil =>
      intro _ a b ha _ _
      simp at ha
  | @cons l' L' c hs ih =>
      intro hn a b ha hb hab
      have hn' : L'.Nodup := (List.nodup_cons.mp hn).2
      have hcL : c ∉ L' := (List.nodup_cons.mp hn).1
      cases hab with
      | cons _ h' => exact ih hn' ha hb h'
      | cons₂ _ h' => exact absurd (hs.subset ha) hcL
  | @cons₂ l' L' c hs ih =>
      intro hn a b ha hb hab
      have hn' : L'.Nodup := (List.nodup_cons.mp hn).2
      have hcL : c ∉ L' := (List.nodup_cons.mp hn).1
      cases hab with
      | cons₂ _ h' =>
          have hne : c ≠ b := by
            intro he
            subst he
            exact hcL (List.singleton_sublist.mp h')
          have hb' : b ∈ l' := by
            rcases List.mem_cons.mp hb with hb1 | hb1
            · exact absurd hb1.symm hne
            · exact hb1
          exact List.Sublist.cons₂ c (List.singleton_sublist.mpr hb')
      | cons _ h' =>
          have hane : a ≠ c := by
            intro he
            subst he
            exact hcL (pair_sublist_mem_left h')
          have hbne : b ≠ c := by
            intro he
            subst he
            exact hcL (pair_sublist_mem_right h')
          have ha' : a ∈ l' := by
            rcases List.mem_cons.mp ha with h1 | h1
            · exact absurd h1 hane
            · exact h1
          have hb' : b ∈ l' := by
            rcases List.mem_cons.mp hb with h1 | h1
            · exact absurd h1 hbne
            · exact h1
          exact (ih hn' ha' hb' h').cons c

theorem pair_sublist_take {α : Type} [DecidableEq α] :
    ∀ (l : List α) (n : Nat) {a b : α}, List.Sublist [a, b] l →
      l.count b ≤ 1 → b ∈ l.take n → List.Sublist [a, b] (l.take n) := by
  intro l
  induction l with
  | nil =>
      intro n a b hab _ _
      exact absurd (pair_sublist_mem_left hab) (List.not_mem_nil a)
  | cons c rest ih =>
      intro n a b hab hcount hbtake
      cases n with
      | zero => simp at hbtake
      | succ k =>
          rw [List.take_succ_cons] at hbtake ⊢
          cases hab with
          | cons₂ _ h' =>
              have hbrest : b ∈ rest := List.singleton_sublist.mp h'
              have hbc : b ≠ c := by
                intro he
                subst he
                have : 2 ≤ (b :: rest).count b := by
                  rw [List.count_cons_self]
                  have : 1 ≤ rest.count b := List.count_pos_iff.mpr hbrest
                  omega
                omega
              have hb' : b ∈ rest.take k := by
                rcases List.mem_cons.mp hbtake with h1 | h1
                · exact absurd h1 hbc
                · exact h1
              exact List.Sublist.cons₂ c (List.singleton_sublist.mpr hb')
          | cons _ h' =>
              have hbrest : b ∈ rest := pair_sublist_mem_right h'
              have hbc : b ≠ c := by
                intro he
                subst he
                have : 2 ≤ (b :: rest).count b := by
                  rw [List.count_cons_self]
                  have : 1 ≤ rest.count b := List.count_pos_iff.mpr hbrest
                  omega
                omega
              have hb' : b ∈ rest.take k := by
                rcases List.mem_cons.mp hbtake with h1 | h1
                · exact absurd h1 hbc
                · exact h1
              have hcount' : rest.count b ≤ 1 := by
                have := List.count_cons b c rest
                have hle : rest.count b ≤ (c :: rest).count b := by
                  rw [List.count_cons]
                  omega
                omega
              exact (ih k h' hcount' hb').cons c

theorem indexOf_lt_of_pair_sublist {α : Type} [DecidableEq α] :
    ∀ {l : List α} {x y : α}, List.Sublist [x, y] l →
      l.count x ≤ 1 → l.count y ≤ 1 →
      List.indexOf x l < List.indexOf y l := by
  intro l
  induction l with
  | nil =>
      intro x y h _ _
      exact absurd (pair_sublist_mem_left h) (List.not_mem_nil x)
  | cons c rest ih =>
      intro x y h hx hy
      have hxy : x ≠ y := by
        intro he
        subst he
        have hc := h.count_le x
        simp at hc
        omega
      cases h with
      | cons₂ _ h' =>
          have hyrest : y ∈ rest := List.singleton_sublist.mp h'
          rw [List.indexOf_cons, List.indexOf_cons]
          have hbx : (c == c) = true := beq_self_eq_true c
          have hby : (c == y) = false := by
            simp only [beq_eq_false_iff_ne, ne_eq]
            exact hxy
          rw [hbx, hby]
          simp
      | cons _ h' =>
          have hxrest : x ∈ rest := pair_sublist_mem_left h'
          have hyrest : y ∈ rest := pair_sublist_mem_right h'
          have hcx : c ≠ x := by
            intro he
            subst he
            rw [List.count_cons_self] at hx
            have : 1 ≤ rest.count c := List.count_pos_iff.mpr hxrest
            omega
          have hcy : c ≠ y := by
            intro he
            subst he
            rw [List.count_cons_self] at hy
            have : 1 ≤ rest.count c := List.count_pos_iff.mpr hyrest
            omega
          rw [List.indexOf_cons, List.indexOf_cons]
          have hbx : (c == x) = false := by
            simp only [beq_eq_false_iff_ne, ne_eq]
            exact hcx
          have hby : (c == y) = false := by
            simp only [beq_eq_false_iff_ne, ne_eq]
            exact hcy
          rw [hbx, hby]
          have hx' : rest.count x ≤ 1 := by
            rw [List.count_cons] at hx
            omega
          have hy' : rest.count y ≤ 1 := by
            rw [List.count_cons] at hy
            omega
          have := ih h' hx' hy'
          simp only [cond_false]
          omega

theorem indexOf_append_left {α : Type} [DecidableEq α]
    {x : α} : ∀ {l1 : List α} (l2 : List α), x ∈ l1 →
      List.indexOf x (l1 ++ l2) = List.indexOf x l1 := by
  intro l1
  induction l1 with
  | nil => intro l2 h; simp at h
  | cons c rest ih =>
      intro l2 h
      rw [List.cons_append, List.indexOf_cons, List.indexOf_cons]
      by_cases hc : (c == x) = true
      · rw [hc]
        rfl
      · rw [Bool.not_eq_true] at hc
        rw [hc]
        have hx : x ∈ rest := by
          rcases List.mem_cons.mp h with h1 | h1
          · exfalso
            rw [h1] at hc
            simp at hc
          · exact h1
        simp only [cond_false]
        rw [ih l2 hx]

theorem indexOf_append_right {α : Type} [DecidableEq α]
    {x : α} : ∀ {l1 : List α} (l2 : List α), x ∉ l1 →
      List.indexOf x (l1 ++ l2) = l1.length + List.indexOf x l2 := by
  intro l1
  induction l1 with
  | nil => intro l2 _; simp
  | cons c rest ih =>
      intro l2 h
      rw [List.cons_append, List.indexOf_cons]
      have hc : (c == x) = false := by
        simp only [beq_eq_false_iff_ne, ne_eq]
        intro he
        exact h (by rw [he]; exact List.mem_cons_self x rest)
      rw [hc]
      have hx : x ∉ rest := fun hr => h (List.mem_cons_of_mem c hr)
      simp only [cond_false]
      rw [ih l2 hx]
      simp only [List.length_cons]
      omega

theorem count_map_eq_count {α β : Type} [DecidableEq α] [DecidableEq β]
    (f : α → β) (a : α) :
    ∀ (l : List α), (∀ x ∈ l, f x = f a → x = a) →
      (l.map f).count (f a) = l.count a := by
  intro l
  induction l with
  | nil => intro _; rfl
  | cons c rest ih =>
      intro hinj
      rw [List.map_cons, List.count_cons, List.count_cons]
      have hrec := ih (fun x hx => hinj x (List.mem_cons_of_mem c hx))
      by_cases hfc : f c = f a
      · have hca : c = a := hinj c (List.mem_cons_self c rest) hfc
        subst hca
        rw [hrec]
        simp
      · have hca : c ≠ a := fun he => hfc (by rw [he])
        rw [hrec]
        have h1 : (f c == f a) = false := by
          simp only [beq_eq_false_iff_ne, ne_eq]
          exact hfc
        have h2 : (c == a) = false := by
          simp only [beq_eq_false_iff_ne, ne_eq]
          exact hca
        rw [h1, h2]

/-- Run invariant tying the queue state to the observation log: ids of
enqueued messages are fresh nonces below the supply and pairwise
distinct; every message record owned by the queue (and every id that was
acknowledged, leased or retried) comes from an enqueued message; a
never-retried never-leased message is in no container other than the
queue array; the never-retried never-leased part of the queue array is
an order-preserving selection of the enqueue sequence; every delayed
(scheduled-retry) message has been retried; and an unleased never-retried
message that was enqueued before some leased never-retried message has
left the queue for good (only a purge can cause this). -/
structure Inv (s : SQSState) (log : List LogEntry) : Prop where
  idsBound : ∀ m ∈ enqList log,
    ∃ k, k < s.nextNonce ∧ m.MessageId = generateMessageId k
  idsNodup : ((enqList log).map (fun m => m.MessageId)).Nodup
  memQueue : ∀ m ∈ s.queue, m ∈ enqList log
  memProcessing : ∀ m ∈ s.processingQueue, m ∈ enqList log
  memDelayed : ∀ p ∈ s.delayed, p.2 ∈ enqList log
  memProcessed : ∀ mid ∈ s.processedMessages,
    ∃ m ∈ enqList log, m.MessageId = mid
  memLeased : ∀ mid ∈ leaseSeq log, ∃ m ∈ enqList log, m.MessageId = mid
  memRetried : ∀ mid, retriedIn log mid = true →
    ∃ m ∈ enqList log, m.MessageId = mid
  offline : ∀ m ∈ enqList log, nrnlB log m.MessageId = true →
    (∀ p ∈ s.processingQueue, p.MessageId ≠ m.MessageId) ∧
    m.MessageId ∉ s.processedMessages ∧
    (∀ p ∈ s.delayed, p.2.MessageId ≠ m.MessageId)
  queueOrder : (s.queue.filter (fun m => nrnlB log m.MessageId)).Sublist
    ((enqList log).filter (fun m => nrnlB log m.MessageId))
  delayedRetried : ∀ p ∈ s.delayed, retriedIn log p.2.MessageId = true
  noSkip : ∀ a b : OrderEventMessage, List.Sublist [a, b] (enqList log) →
    retriedIn log a.MessageId = false →
    retriedIn log b.MessageId = false →
    b.MessageId ∈ leaseSeq log → a.MessageId ∉ leaseSeq log →
    ∀ m ∈ stateMessages s, m.MessageId ≠ a.MessageId

/-- Per-group FIFO as observed in a run log: two never-retried messages
that were both leased are first leased in their enqueue order (the
position of an id in the flattened lease sequence is the moment of its
first lease). -/
def FifoOrdered (log : List LogEntry) : Prop :=
  ∀ a b : OrderEventMessage, List.Sublist [a, b] (enqList log) →
    retriedIn log a.MessageId = false →
    retriedIn log b.MessageId = false →
    a.MessageId ∈ leaseSeq log → b.MessageId ∈ leaseSeq log →
    List.indexOf a.MessageId (leaseSeq log) ≤
      List.indexOf b.MessageId (leaseSeq log)

theorem inv_init : Inv initState [] := by
  refine ⟨?_, ?_, ?_, ?_, ?_, ?_, ?_, ?_, ?_, ?_, ?_, ?_⟩
  · intro m hm; exact absurd hm (List.not_mem_nil m)
  · simp [enqList]
  · intro m hm; exact absurd hm (List.not_mem_nil m)
  · intro m hm; exact absurd hm (List.not_mem_nil m)
  · intro p hp; exact absurd hp (List.not_mem_nil p)
  · intro mid hmid; exact absurd hmid (List.not_mem_nil mid)
  · intro mid hmid; exact absurd hmid (List.not_mem_nil mid)
  · intro mid hmid; simp [retriedIn] at hmid
  · intro m hm; exact absurd hm (List.not_mem_nil m)
  · simp [initState, enqList]
  · intro p hp; exact absurd hp (List.not_mem_nil p)
  · intro a b hab _ _ hb _
    exact absurd hb (List.not_mem_nil _)

theorem fifo_nil : FifoOrdered [] := by
  intro a b _ _ _ ha _
  exact absurd ha (List.not_mem_nil _)

/-- Filtering with a predicate that implies another factors through the
weaker filter. -/
theorem filter_of_imp {α : Type} {p p' : α → Bool}
    (h : ∀ x, p' x = true → p x = true) (l : List α) :
    l.filter p' = (l.filter p).filter p' := by
  rw [List.filter_filter]
  apply List.filter_congr
  intro x _
  cases hp' : p' x with
  | true => simp [h x hp']
  | false => simp

theorem nrnlB_congr {log log' : List LogEntry}
    (hL : leaseSeq log' = leaseSeq log)
    (hR : ∀ mid, retriedIn log' mid = retriedIn log mid) :
    ∀ mid, nrnlB log' mid = nrnlB log mid := by
  intro mid
  unfold nrnlB
  rw [hR, hL]

theorem inv_congr {s s' : SQSState} {log log' : List LogEntry}
    (hI : Inv s log)
    (hE : enqList log' = enqList log)
    (hL : leaseSeq log' = leaseSeq log)
    (hR : ∀ mid, retriedIn log' mid = retriedIn log mid)
    (hq : s'.queue = s.queue)
    (hp : s'.processingQueue = s.processingQueue)
    (hd : s'.delayed = s.delayed)
    (hpr : s'.processedMessages = s.processedMessages)
    (hn : s.nextNonce ≤ s'.nextNonce) :
    Inv s' log' := by
  have hnr := nrnlB_congr hL hR
  have hsm : stateMessages s' = stateMessages s := by
    unfold stateMessages
    rw [hq, hp, hd]
  refine ⟨?_, ?_, ?_, ?_, ?_, ?_, ?_, ?_, ?_, ?_, ?_, ?_⟩
  · rw [hE]
    intro m hm
    obtain ⟨k, hk, hid⟩ := hI.idsBound m hm
    exact ⟨k, lt_of_lt_of_le hk hn, hid⟩
  · rw [hE]; exact hI.idsNodup
  · rw [hq, hE]; exact hI.memQueue
  · rw [hp, hE]; exact hI.memProcessing
  · rw [hd, hE]; exact hI.memDelayed
  · rw [hpr, hE]; exact hI.memProcessed
  · rw [hL, hE]; exact hI.memLeased
  · intro mid hmid
    rw [hR] at hmid
    rw [hE]
    exact hI.memRetried mid hmid
  · rw [hE]
    intro m hm hnm
    rw [hnr] at hnm
    rw [hp, hpr, hd]
    exact hI.offline m hm hnm
  · have hfq : s.queue.filter (fun m => nrnlB log' m.MessageId) =
        s.queue.filter (fun m => nrnlB log m.MessageId) :=
      List.filter_congr (fun x _ => hnr x.MessageId)
    have hfe : (enqList log).filter (fun m => nrnlB log' m.MessageId) =
        (enqList log).filter (fun m => nrnlB log m.MessageId) :=
      List.filter_congr (fun x _ => hnr x.MessageId)
    rw [hq, hE, hfq, hfe]
    exact hI.queueOrder
  · rw [hd]
    intro p hp'
    rw [hR]
    exact hI.delayedRetried p hp'
  · intro a b hab hra hrb hb hna m hm
    rw [hE] at hab
    rw [hR] at hra hrb
    rw [hL] at hb hna
    rw [hsm] at hm
    exact hI.noSkip a b hab hra hrb hb hna m hm

theorem fifo_congr {log log' : List LogEntry}
    (hE : enqList log' = enqList log)
    (hL : leaseSeq log' = leaseSeq log)
    (hR : ∀ mid, retriedIn log' mid = retriedIn log mid)
    (hF : FifoOrdered log) : FifoOrdered log' := by
  intro a b hab hra hrb ha hb
  rw [hE] at hab
  rw [hR] at hra hrb
  rw [hL] at ha hb ⊢
  exact hF a b hab hra hrb ha hb

theorem mem_addToSet {l : List String} {x y : String}
    (h : x ∈ addToSet l y) : x ∈ l ∨ x = y := by
  unfold addToSet at h
  by_cases hc : l.contains y = true
  · rw [if_pos hc] at h
    exact Or.inl h
  · rw [if_neg hc] at h
    rcases List.mem_append.mp h with h1 | h1
    · exact Or.inl h1
    · exact Or.inr (List.mem_singleton.mp h1)

theorem inv_state_delete (s : SQSState) (log : List LogEntry)
    (rh : String) (m0 : OrderEventMessage)
    (hI : Inv s log) (hm0 : m0 ∈ s.processingQueue) :
    Inv { s with
            processingQueue := removeFirstByHandle s.processingQueue rh,
            processedMessages := addToSet s.processedMessages m0.MessageId }
      log := by
  refine ⟨hI.idsBound, hI.idsNodup, hI.memQueue, ?_, hI.memDelayed, ?_,
    hI.memLeased, hI.memRetried, ?_, hI.queueOrder, hI.delayedRetried, ?_⟩
  · intro m hm
    exact hI.memProcessing m (mem_removeFirstByHandle _ _ _ hm)
  · intro mid hmid
    rcases mem_addToSet hmid with h1 | h1
    · exact hI.memProcessed mid h1
    · exact ⟨m0, hI.memProcessing m0 hm0, h1.symm⟩
  · intro m hm hnm
    obtain ⟨hp1, hp2, hp3⟩ := hI.offline m hm hnm
    refine ⟨?_, ?_, hp3⟩
    · intro p hp
      exact hp1 p (mem_removeFirstByHandle _ _ _ hp)
    · intro hmem
      rcases mem_addToSet hmem with h1 | h1
      · exact hp2 h1
      · exact hp1 m0 hm0 h1.symm
  · intro a b hab hra hrb hb hna m hm
    have hm' : m ∈ stateMessages s := by
      simp only [stateMessages, List.mem_append] at hm ⊢
      rcases hm with (h1 | h1) | h1
      · exact Or.inl (Or.inl h1)
      · exact Or.inl (Or.inr (mem_removeFirstByHandle _ _ _ h1))
      · exact Or.inr h1
    exact hI.noSkip a b hab hra hrb hb hna m hm'

theorem inv_state_advance (s : SQSState) (log : List LogEntry) (t : Nat)
    (hI : Inv s log) : Inv (advanceTo s t) log := by
  have hfired : ∀ m ∈ (s.delayed.filter (fun p => p.1 ≤ t)).map Prod.snd,
      ∃ p ∈ s.delayed, p.2 = m := by
    intro m hm
    rcases List.mem_map.mp hm with ⟨p, hp, hpm⟩
    exact ⟨p, List.mem_of_mem_filter hp, hpm⟩
  refine ⟨hI.idsBound, hI.idsNodup, ?_, hI.memProcessing, ?_,
    hI.memProcessed, hI.memLeased, hI.memRetried, ?_, ?_, ?_, ?_⟩
  · intro m hm
    rcases List.mem_append.mp hm with h1 | h1
    · exact hI.memQueue m h1
    · obtain ⟨p, hp, hpm⟩ := hfired m h1
      exact hpm ▸ hI.memDelayed p hp
  · intro p hp
    exact hI.memDelayed p (List.mem_of_mem_filter hp)
  · intro m hm hnm
    obtain ⟨hp1, hp2, hp3⟩ := hI.offline m hm hnm
    refine ⟨hp1, hp2, ?_⟩
    intro p hp
    exact hp3 p (List.mem_of_mem_filter hp)
  · show ((s.queue ++
      (s.delayed.filter (fun p => p.1 ≤ t)).map Prod.snd).filter
        (fun m => nrnlB log m.MessageId)).Sublist _
    rw [List.filter_append]
    have hnil : ((s.delayed.filter (fun p => p.1 ≤ t)).map Prod.snd).filter
        (fun m => nrnlB log m.MessageId) = [] := by
      rw [List.filter_eq_nil_iff]
      intro m hm
      obtain ⟨p, hp, hpm⟩ := hfired m hm
      have hret := hI.delayedRetried p hp
      rw [hpm] at hret
      unfold nrnlB
      rw [hret]
      simp
    rw [hnil, List.append_nil]
    exact hI.queueOrder
  · intro p hp
    exact hI.delayedRetried p (List.mem_of_mem_filter hp)
  · intro a b hab hra hrb hb hna m hm
    have hm' : m ∈ stateMessages s := by
      simp only [stateMessages, advanceTo, List.mem_append] at hm ⊢
      rcases hm with ((h1 | h1) | h1) | h1
      · exact Or.inl (Or.inl h1)
      · obtain ⟨p, hp, hpm⟩ := hfired m h1
        exact Or.inr (List.mem_map.mpr ⟨p, hp, hpm⟩)
      · exact Or.inl (Or.inr h1)
      · rcases List.mem_map.mp h1 with ⟨p, hp, hpm⟩
        exact Or.inr (List.mem_map.mpr ⟨p, List.mem_of_mem_filter hp, hpm⟩)
    exact hI.noSkip a b hab hra hrb hb hna m hm'

theorem inv_state_purge (s : SQSState) (log : List LogEntry)
    (hI : Inv s log) : Inv (purgeQueue s) log := by
  refine ⟨hI.idsBound, hI.idsNodup, ?_, ?_, hI.memDelayed, ?_,
    hI.memLeased, hI.memRetried, ?_, ?_, hI.delayedRetried, ?_⟩
  · intro m hm
    exact absurd hm (List.not_mem_nil m)
  · intro m hm
    exact absurd hm (List.not_mem_nil m)
  · intro mid hmid
    exact absurd hmid (List.not_mem_nil mid)
  · intro m hm hnm
    refine ⟨?_, ?_, ?_⟩
    · intro p hp
      exact absurd hp (List.not_mem_nil p)
    · intro hmem
      exact absurd hmem (List.not_mem_nil _)
    · intro p hp
      have hret := hI.delayedRetried p hp
      intro he
      unfold nrnlB at hnm
      rw [he] at hret
      rw [hret] at hnm
      simp at hnm
  · show (List.filter _ []).Sublist _
    simp
  · intro a b hab hra hrb hb hna m hm
    have hm' : m ∈ (purgeQueue s).delayed.map Prod.snd := by
      simp only [stateMessages, purgeQueue, List.mem_append,
        List.not_mem_nil] at hm
      rcases hm with (h1 | h1) | h1
      · exact absurd h1 (by simp)
      · exact absurd h1 (by simp)
      · exact h1
    rcases List.mem_map.mp hm' with ⟨p, hp, hpm⟩
    have hret := hI.delayedRetried p hp
    intro he
    rw [hpm] at hret
    rw [he] at hret
    rw [hret] at hra
    simp at hra

theorem retriedIn_snoc_retried (log : List LogEntry) (x mid : String) :
    retriedIn (log ++ [.retried x]) mid =
      (retriedIn log mid || (x == mid)) := by
  rw [retriedIn_append]
  simp [retriedIn]

theorem inv_step_ret_found (s : SQSState) (log : List LogEntry)
    (rh : String) (m0 : OrderEventMessage)
    (hI : Inv s log) (hm0 : m0 ∈ s.processingQueue) :
    Inv { s with
            processingQueue := removeFirstByHandle s.processingQueue rh,
            delayed := s.delayed ++ [(s.now + 1000, m0)] }
      (log ++ [.retried m0.MessageId]) ∧
    (FifoOrdered log → FifoOrdered (log ++ [.retried m0.MessageId])) := by
  have hE : enqList (log ++ [.retried m0.MessageId]) = enqList log := by
    rw [enqList_append]
    simp [enqList]
  have hL : leaseSeq (log ++ [.retried m0.MessageId]) = leaseSeq log := by
    rw [leaseSeq_append]
    simp [leaseSeq]
  have hR : ∀ mid, retriedIn (log ++ [.retried m0.MessageId]) mid =
      (retriedIn log mid || (m0.MessageId == mid)) :=
    retriedIn_snoc_retried log m0.MessageId
  have hRf : ∀ mid, retriedIn (log ++ [.retried m0.MessageId]) mid = false →
      retriedIn log mid = false ∧ m0.MessageId ≠ mid := by
    intro mid h
    rw [hR] at h
    rcases Bool.or_eq_false_iff.mp h with ⟨h1, h2⟩
    refine ⟨h1, ?_⟩
    simpa using h2
  have himp : ∀ mid, nrnlB (log ++ [.retried m0.MessageId]) mid = true →
      nrnlB log mid = true := fun mid h => nrnlB_of_append log _ mid h
  constructor
  · refine ⟨?_, ?_, ?_, ?_, ?_, ?_, ?_, ?_, ?_, ?_, ?_, ?_⟩
    · rw [hE]; exact hI.idsBound
    · rw [hE]; exact hI.idsNodup
    · rw [hE]; exact hI.memQueue
    · rw [hE]
      intro m hm
      exact hI.memProcessing m (mem_removeFirstByHandle _ _ _ hm)
    · rw [hE]
      intro p hp
      rcases List.mem_append.mp hp with h1 | h1
      · exact hI.memDelayed p h1
      · rw [List.mem_singleton.mp h1]
        exact hI.memProcessing m0 hm0
    · rw [hE]; exact hI.memProcessed
    · rw [hL, hE]; exact hI.memLeased
    · intro mid hmid
      rw [hE]
      rw [hR] at hmid
      rcases Bool.or_eq_true_iff.mp hmid with h1 | h1
      · exact hI.memRetried mid h1
      · exact ⟨m0, hI.memProcessing m0 hm0, by simpa using h1⟩
    · rw [hE]
      intro m hm hnm
      have hnm' := himp m.MessageId hnm
      obtain ⟨hp1, hp2, hp3⟩ := hI.offline m hm hnm'
      have hm0ne : m0.MessageId ≠ m.MessageId := by
        have hrf : retriedIn (log ++ [.retried m0.MessageId]) m.MessageId
            = false := by
          unfold nrnlB at hnm
          cases hret : retriedIn (log ++ [.retried m0.MessageId])
              m.MessageId with
          | false => rfl
          | true =>
              rw [hret] at hnm
              simp at hnm
        exact (hRf m.MessageId hrf).2
      refine ⟨?_, hp2, ?_⟩
      · intro p hp
        exact hp1 p (mem_removeFirstByHandle _ _ _ hp)
      · intro p hp
        rcases List.mem_append.mp hp with h1 | h1
        · exact hp3 p h1
        · rw [List.mem_singleton.mp h1]
          exact hm0ne
    · rw [hE]
      have hq1 : s.queue.filter
          (fun m => nrnlB (log ++ [.retried m0.MessageId]) m.MessageId) =
          (s.queue.filter (fun m => nrnlB log m.MessageId)).filter
            (fun m => nrnlB (log ++ [.retried m0.MessageId]) m.MessageId) :=
        filter_of_imp (fun x hx => himp x.MessageId hx) s.queue
      have he1 : (enqList log).filter
          (fun m => nrnlB (log ++ [.retried m0.MessageId]) m.MessageId) =
          ((enqList log).filter (fun m => nrnlB log m.MessageId)).filter
            (fun m => nrnlB (log ++ [.retried m0.MessageId]) m.MessageId) :=
        filter_of_imp (fun x hx => himp x.MessageId hx) (enqList log)
      rw [hq1, he1]
      exact hI.queueOrder.filter _
    · intro p hp
      rcases List.mem_append.mp hp with h1 | h1
      · rw [hR]
        rw [hI.delayedRetried p h1]
        rfl
      · rw [List.mem_singleton.mp h1]
        rw [hR]
        simp
    · intro a b hab hra hrb hb hna m hm
      rw [hE] at hab
      rw [hL] at hb hna
      have hra' := (hRf a.MessageId hra).1
      have hrb' := (hRf b.MessageId hrb).1
      have habs := hI.noSkip a b hab hra' hrb' hb hna
      simp only [stateMessages, List.mem_append] at hm
      rcases hm with (h1 | h1) | h1
      · exact habs m (by simp [stateMessages, List.mem_append, h1])
      · exact habs m (by
          simp only [stateMessages, List.mem_append]
          exact Or.inl (Or.inr (mem_removeFirstByHandle _ _ _ h1)))
      · rcases List.mem_map.mp h1 with ⟨p, hp, hpm⟩
        rcases List.mem_append.mp hp with h2 | h2
        · exact habs m (by
            simp only [stateMessages, List.mem_append]
            exact Or.inr (List.mem_map.mpr ⟨p, h2, hpm⟩))
        · rw [List.mem_singleton.mp h2] at hpm
          rw [← hpm]
          exact habs m0 (by
            simp only [stateMessages, List.mem_append]
            exact Or.inl (Or.inr hm0))
  · intro hF a b hab hra hrb ha hb
    rw [hE] at hab
    rw [hL] at ha hb ⊢
    exact hF a b hab (hRf a.MessageId hra).1 (hRf b.MessageId hrb).1 ha hb

theorem inv_step_send_new (s : SQSState) (log : List LogEntry)
    (event : SendInput) (hI : Inv s log) :
    Inv { s with
            nextNonce := s.nextNonce + 2,
            queue := s.queue ++
              [mkMessage event (generateMessageId s.nextNonce)
                (generateReceiptHandle (s.nextNonce + 1)) s.now],
            deduplicationCache :=
              mapSet s.deduplicationCache event.deduplicationId s.now }
      (log ++ [.enqueued (mkMessage event (generateMessageId s.nextNonce)
        (generateReceiptHandle (s.nextNonce + 1)) s.now)]) ∧
    (FifoOrdered log →
      FifoOrdered (log ++ [.enqueued
        (mkMessage event (generateMessageId s.nextNonce)
          (generateReceiptHandle (s.nextNonce + 1)) s.now)])) := by
  set newMsg := mkMessage event (generateMessageId s.nextNonce)
    (generateReceiptHandle (s.nextNonce + 1)) s.now with hnew
  have hE : enqList (log ++ [.enqueued newMsg]) = enqList log ++ [newMsg] := by
    rw [enqList_append]
    rfl
  have hL : leaseSeq (log ++ [.enqueued newMsg]) = leaseSeq log := by
    rw [leaseSeq_append]
    simp [leaseSeq]
  have hR : ∀ mid, retriedIn (log ++ [.enqueued newMsg]) mid =
      retriedIn log mid := by
    intro mid
    rw [retriedIn_append]
    simp [retriedIn]
  have hnr := nrnlB_congr hL hR
  have hid : newMsg.MessageId = generateMessageId s.nextNonce := rfl
  have hfreshEnq : ∀ m ∈ enqList log, m.MessageId ≠ newMsg.MessageId := by
    intro m hm he
    obtain ⟨k, hk, hkid⟩ := hI.idsBound m hm
    rw [hid, hkid] at he
    exact absurd (generateMessageId_injective he) (by omega)
  have hfreshLeased : newMsg.MessageId ∉ leaseSeq log := by
    intro hmem
    obtain ⟨m, hm, hmid⟩ := hI.memLeased newMsg.MessageId hmem
    exact hfreshEnq m hm hmid
  have hfreshRetried : retriedIn log newMsg.MessageId = false := by
    cases hret : retriedIn log newMsg.MessageId with
    | false => rfl
    | true =>
        obtain ⟨m, hm, hmid⟩ := hI.memRetried newMsg.MessageId hret
        exact absurd hmid (hfreshEnq m hm)
  have hfreshNrnl : nrnlB log newMsg.MessageId = true := by
    unfold nrnlB
    rw [hfreshRetried]
    have : (leaseSeq log).contains newMsg.MessageId = false := by
      cases hc : (leaseSeq log).contains newMsg.MessageId with
      | false => rfl
      | true => exact absurd ((contains_iff_mem _ _).mp hc) hfreshLeased
    rw [this]
    rfl
  constructor
  · refine ⟨?_, ?_, ?_, ?_, ?_, ?_, ?_, ?_, ?_, ?_, ?_, ?_⟩
    · rw [hE]
      intro m hm
      rcases List.mem_append.mp hm with h1 | h1
      · obtain ⟨k, hk, hkid⟩ := hI.idsBound m h1
        exact ⟨k, by show k < s.nextNonce + 2; omega, hkid⟩
      · rw [List.mem_singleton.mp h1]
        exact ⟨s.nextNonce, by show s.nextNonce < s.nextNonce + 2; omega, hid⟩
    · rw [hE, List.map_append]
      rw [List.nodup_append]
      refine ⟨hI.idsNodup, by simp, ?_⟩
      intro x hx hx2
      rcases List.mem_map.mp hx with ⟨m, hm, hmid⟩
      simp only [List.map_cons, List.map_nil, List.mem_singleton] at hx2
      rw [hx2] at hmid
      exact hfreshEnq m hm hmid
    · rw [hE]
      intro m hm
      rcases List.mem_append.mp hm with h1 | h1
      · exact List.mem_append_left _ (hI.memQueue m h1)
      · exact List.mem_append_right _ h1
    · rw [hE]
      intro m hm
      exact List.mem_append_left _ (hI.memProcessing m hm)
    · rw [hE]
      intro p hp
      exact List.mem_append_left _ (hI.memDelayed p hp)
    · rw [hE]
      intro mid hmid
      obtain ⟨m, hm, hmid'⟩ := hI.memProcessed mid hmid
      exact ⟨m, List.mem_append_left _ hm, hmid'⟩
    · rw [hL, hE]
      intro mid hmid
      obtain ⟨m, hm, hmid'⟩ := hI.memLeased mid hmid
      exact ⟨m, List.mem_append_left _ hm, hmid'⟩
    · intro mid hmid
      rw [hR] at hmid
      rw [hE]
      obtain ⟨m, hm, hmid'⟩ := hI.memRetried mid hmid
      exact ⟨m, List.mem_append_left _ hm, hmid'⟩
    · rw [hE]
      intro m hm hnm
      rw [hnr] at hnm
      rcases List.mem_append.mp hm with h1 | h1
      · exact hI.offline m h1 hnm
      · rw [List.mem_singleton.mp h1]
        refine ⟨?_, ?_, ?_⟩
        · intro p hp he
          exact hfreshEnq p (hI.memProcessing p hp) he
        · intro hmem
          obtain ⟨m', hm', hmid'⟩ := hI.memProcessed newMsg.MessageId hmem
          exact hfreshEnq m' hm' hmid'
        · intro p hp he
          exact hfreshEnq p.2 (hI.memDelayed p hp) he
    · rw [hE]
      have hfq : (s.queue ++ [newMsg]).filter
          (fun m => nrnlB (log ++ [.enqueued newMsg]) m.MessageId) =
          s.queue.filter (fun m => nrnlB log m.MessageId) ++ [newMsg] := by
        rw [List.filter_append,
          List.filter_congr (fun x _ => hnr x.MessageId)]
        congr 1
        simp [hnr newMsg.MessageId, hfreshNrnl]
      have hfe : (enqList log ++ [newMsg]).filter
          (fun m => nrnlB (log ++ [.enqueued newMsg]) m.MessageId) =
          (enqList log).filter (fun m => nrnlB log m.MessageId) ++
            [newMsg] := by
        rw [List.filter_append,
          List.filter_congr (fun x _ => hnr x.MessageId)]
        congr 1
        simp [hnr newMsg.MessageId, hfreshNrnl]
      rw [hfq, hfe]
      exact hI.queueOrder.append (List.Sublist.refl [newMsg])
    · intro p hp
      rw [hR]
      exact hI.delayedRetried p hp
    · intro a b hab hra hrb hb hna m hm
      rw [hE] at hab
      rw [hL] at hb hna
      rw [hR] at hra hrb
      rcases pair_sublist_snoc hab with hold | ⟨haEnq, hbNew⟩
      · have habs := hI.noSkip a b hold hra hrb hb hna
        simp only [stateMessages, List.mem_append] at hm
        rcases hm with ((h1 | h1) | h1) | h1
        · exact habs m (by
            simp only [stateMessages, List.mem_append]
            exact Or.inl (Or.inl h1))
        · rw [List.mem_singleton.mp h1]
          intro he
          exact hfreshEnq a (pair_sublist_mem_left hold) he.symm
        · exact habs m (by
            simp only [stateMessages, List.mem_append]
            exact Or.inl (Or.inr h1))
        · exact habs m (by
            simp only [stateMessages, List.mem_append]
            exact Or.inr h1)
      · rw [hbNew] at hb
        exact absurd hb hfreshLeased
  · intro hF a b hab hra hrb ha hb
    rw [hE] at hab
    rw [hL] at ha hb ⊢
    rw [hR] at hra hrb
    rcases pair_sublist_snoc hab with hold | ⟨haEnq, hbNew⟩
    · exact hF a b hold hra hrb ha hb
    · rw [hbNew] at hb
      exact absurd hb hfreshLeased

theorem mem_enq_eq_of_id {s : SQSState} {log : List LogEntry}
    (hI : Inv s log) {m m' : OrderEventMessage}
    (hm : m ∈ enqList log) (hm' : m' ∈ enqList log)
    (hid : m.MessageId = m'.MessageId) : m = m' :=
  List.inj_on_of_nodup_map hI.idsNodup hm hm' hid

theorem nrnl_eligible {s : SQSState} {log : List LogEntry}
    (hI : Inv s log) {m : OrderEventMessage}
    (hm : m ∈ enqList log) (hn : nrnlB log m.MessageId = true) :
    (!(s.processingQueue.any (fun p => p.MessageId == m.MessageId)) &&
      !(s.processedMessages.contains m.MessageId)) = true := by
  obtain ⟨hp1, hp2, _⟩ := hI.offline m hm hn
  have h1 : s.processingQueue.any
      (fun p => p.MessageId == m.MessageId) = false := by
    rw [List.any_eq_false]
    intro p hp
    simp only [beq_eq_false_iff_ne, ne_eq, Bool.not_eq_true]
    exact hp1 p hp
  have h2 : s.processedMessages.contains m.MessageId = false := by
    cases hc : s.processedMessages.contains m.MessageId with
    | false => rfl
    | true => exact absurd (List.elem_iff.mp hc) hp2
  rw [h1, h2]
  rfl

theorem nrnl_mem_available {s : SQSState} {log : List LogEntry}
    (hI : Inv s log) {m : OrderEventMessage}
    (hm : m ∈ enqList log) (hn : nrnlB log m.MessageId = true)
    (hq : m ∈ s.queue) : m ∈ availableMessages s := by
  unfold availableMessages
  rw [List.mem_filter]
  exact ⟨hq, nrnl_eligible hI hm hn⟩

theorem nrnl_count_queue_le_one {s : SQSState} {log : List LogEntry}
    (hI : Inv s log) {m : OrderEventMessage}
    (hm : m ∈ enqList log) (hn : nrnlB log m.MessageId = true) :
    s.queue.count m ≤ 1 := by
  have h1 : s.queue.count m =
      (s.queue.filter (fun x => nrnlB log x.MessageId)).count m :=
    (List.count_filter (p := fun x => nrnlB log x.MessageId) hn).symm
  have h2 := hI.queueOrder.count_le m
  have h3 := (List.filter_sublist (p := fun x => nrnlB log x.MessageId)
    (enqList log)).count_le m
  have hnodup : (enqList log).Nodup :=
    List.Nodup.of_map (fun m => m.MessageId) hI.idsNodup
  have h4 := List.nodup_iff_count_le_one.mp hnodup m
  omega

theorem pair_in_out (s : SQSState) (log : List LogEntry) (maxN : Nat)
    (hI : Inv s log) {a b : OrderEventMessage}
    (hab : List.Sublist [a, b] (enqList log))
    (hna : nrnlB log a.MessageId = true) (hnb : nrnlB log b.MessageId = true)
    (haq : a ∈ s.queue)
    (hbout : b ∈ (availableMessages s).take maxN) :
    List.Sublist [a, b] ((availableMessages s).take maxN) := by
  have hbq : b ∈ s.queue :=
    List.mem_of_mem_filter (List.mem_of_mem_take hbout)
  have hnodup : (enqList log).Nodup :=
    List.Nodup.of_map (fun m => m.MessageId) hI.idsNodup
  have habF : List.Sublist [a, b]
      ((enqList log).filter (fun x => nrnlB log x.MessageId)) :=
    pair_sublist_filter hab hna hnb
  have hnodupF : ((enqList log).filter
      (fun x => nrnlB log x.MessageId)).Nodup :=
    hnodup.filter _
  have haqF : a ∈ s.queue.filter (fun x => nrnlB log x.MessageId) :=
    List.mem_filter.mpr ⟨haq, hna⟩
  have hbqF : b ∈ s.queue.filter (fun x => nrnlB log x.MessageId) :=
    List.mem_filter.mpr ⟨hbq, hnb⟩
  have habQF : List.Sublist [a, b]
      (s.queue.filter (fun x => nrnlB log x.MessageId)) :=
    pair_sublist_of_sublist_nodup hI.queueOrder hnodupF haqF hbqF habF
  have habQ : List.Sublist [a, b] s.queue :=
    habQF.trans (List.filter_sublist s.queue)
  have habAv : List.Sublist [a, b] (availableMessages s) :=
    pair_sublist_filter habQ
      (nrnl_eligible hI (pair_sublist_mem_left hab) hna)
      (nrnl_eligible hI (pair_sublist_mem_right hab) hnb)
  have hcount : (availableMessages s).count b ≤ 1 := by
    have h1 := (List.filter_sublist (p := fun msg =>
      !(s.processingQueue.any (fun p => p.MessageId == msg.MessageId)) &&
        !(s.processedMessages.contains msg.MessageId)) s.queue).count_le b
    have h2 := nrnl_count_queue_le_one hI (pair_sublist_mem_right hab) hnb
    have h3 : (availableMessages s).count b ≤ s.queue.count b := h1
    omega
  exact pair_sublist_take (availableMessages s) maxN habAv hcount hbout

theorem inv_step_receive (s : SQSState) (log : List LogEntry) (maxN : Nat)
    (hI : Inv s log) :
    Inv { s with processingQueue :=
            s.processingQueue ++ (availableMessages s).take maxN }
      (log ++ [.leased ((availableMessages s).take maxN)]) ∧
    (FifoOrdered log →
      FifoOrdered (log ++ [.leased ((availableMessages s).take maxN)])) := by
  set out := (availableMessages s).take maxN with hout
  have hE : enqList (log ++ [.leased out]) = enqList log := by
    rw [enqList_append]
    simp [enqList]
  have hL : leaseSeq (log ++ [.leased out]) =
      leaseSeq log ++ out.map (fun m => m.MessageId) := by
    rw [leaseSeq_append]
    simp [leaseSeq]
  have hR : ∀ mid, retriedIn (log ++ [.leased out]) mid =
      retriedIn log mid := by
    intro mid
    rw [retriedIn_append]
    simp [retriedIn]
  have houtq : ∀ m ∈ out, m ∈ s.queue := by
    intro m hm
    exact List.mem_of_mem_filter (List.mem_of_mem_take hm)
  have himp : ∀ mid, nrnlB (log ++ [.leased out]) mid = true →
      nrnlB log mid = true := fun mid h => nrnlB_of_append log _ mid h
  have hinout : ∀ mid, mid ∈ out.map (fun m => m.MessageId) →
      ∃ m ∈ out, m.MessageId = mid := by
    intro mid hmid
    rcases List.mem_map.mp hmid with ⟨m, hm, hmeq⟩
    exact ⟨m, hm, hmeq⟩
  -- a message of the enqueue sequence equal by id to a member of out is
  -- itself a member of out
  have hvalout : ∀ (x : OrderEventMessage), x ∈ enqList log →
      x.MessageId ∈ out.map (fun m => m.MessageId) → x ∈ out := by
    intro x hx hmid
    rcases hinout x.MessageId hmid with ⟨m, hm, hmeq⟩
    have : m = x := mem_enq_eq_of_id hI
      (hI.memQueue m (houtq m hm)) hx hmeq
    exact this ▸ hm
  constructor
  · refine ⟨?_, ?_, ?_, ?_, ?_, ?_, ?_, ?_, ?_, ?_, ?_, ?_⟩
    · rw [hE]; exact hI.idsBound
    · rw [hE]; exact hI.idsNodup
    · rw [hE]; exact hI.memQueue
    · rw [hE]
      intro m hm
      rcases List.mem_append.mp hm with h1 | h1
      · exact hI.memProcessing m h1
      · exact hI.memQueue m (houtq m h1)
    · rw [hE]; exact hI.memDelayed
    · rw [hE]; exact hI.memProcessed
    · rw [hL, hE]
      intro mid hmid
      rcases List.mem_append.mp hmid with h1 | h1
      · exact hI.memLeased mid h1
      · rcases hinout mid h1 with ⟨m, hm, hmeq⟩
        exact ⟨m, hI.memQueue m (houtq m hm), hmeq⟩
    · intro mid hmid
      rw [hR] at hmid
      rw [hE]
      exact hI.memRetried mid hmid
    · rw [hE]
      intro m hm hnm
      have hnm' := himp m.MessageId hnm
      obtain ⟨hp1, hp2, hp3⟩ := hI.offline m hm hnm'
      have hnotout : m.MessageId ∉ out.map (fun x => x.MessageId) := by
        intro hmem
        unfold nrnlB at hnm
        have : m.MessageId ∈ leaseSeq (log ++ [.leased out]) := by
          rw [hL]
          exact List.mem_append_right _ hmem
        have hc := (contains_iff_mem (leaseSeq (log ++ [.leased out]))
          m.MessageId).mpr this
        rw [hc] at hnm
        simp at hnm
      refine ⟨?_, hp2, hp3⟩
      intro p hp
      rcases List.mem_append.mp hp with h1 | h1
      · exact hp1 p h1
      · intro he
        exact hnotout (he ▸ List.mem_map_of_mem (fun x => x.MessageId) h1)
    · rw [hE]
      have hq1 : s.queue.filter
          (fun m => nrnlB (log ++ [.leased out]) m.MessageId) =
          (s.queue.filter (fun m => nrnlB log m.MessageId)).filter
            (fun m => nrnlB (log ++ [.leased out]) m.MessageId) :=
        filter_of_imp (fun x hx => himp x.MessageId hx) s.queue
      have he1 : (enqList log).filter
          (fun m => nrnlB (log ++ [.leased out]) m.MessageId) =
          ((enqList log).filter (fun m => nrnlB log m.MessageId)).filter
            (fun m => nrnlB (log ++ [.leased out]) m.MessageId) :=
        filter_of_imp (fun x hx => himp x.MessageId hx) (enqList log)
      rw [hq1, he1]
      exact hI.queueOrder.filter _
    · intro p hp
      rw [hR]
      exact hI.delayedRetried p hp
    · intro a b hab hra hrb hb hna m hm
      rw [hE] at hab
      rw [hR] at hra hrb
      rw [hL] at hb hna
      have hnaOld : a.MessageId ∉ leaseSeq log :=
        fun h => hna (List.mem_append_left _ h)
      have hnaOut : a.MessageId ∉ out.map (fun x => x.MessageId) :=
        fun h => hna (List.mem_append_right _ h)
      have habsS : ∀ m' ∈ stateMessages s, m'.MessageId ≠ a.MessageId := by
        by_cases hbOld : b.MessageId ∈ leaseSeq log
        · exact hI.noSkip a b hab hra hrb hbOld hnaOld
        · -- b was leased by this very receive
          have hbOut : b.MessageId ∈ out.map (fun x => x.MessageId) := by
            rcases List.mem_append.mp hb with h1 | h1
            · exact absurd h1 hbOld
            · exact h1
          have hnlb : nrnlB log b.MessageId = true := by
            unfold nrnlB
            rw [hrb]
            have : (leaseSeq log).contains b.MessageId = false := by
              cases hc : (leaseSeq log).contains b.MessageId with
              | false => rfl
              | true => exact absurd ((contains_iff_mem _ _).mp hc) hbOld
            rw [this]
            rfl
          have hnla : nrnlB log a.MessageId = true := by
            unfold nrnlB
            rw [hra]
            have : (leaseSeq log).contains a.MessageId = false := by
              cases hc : (leaseSeq log).contains a.MessageId with
              | false => rfl
              | true => exact absurd ((contains_iff_mem _ _).mp hc) hnaOld
            rw [this]
            rfl
          intro m' hm' he
          -- the witness with the id of a is a itself, sitting in the queue
          obtain ⟨hp1, hp2, hp3⟩ := hI.offline a
            (pair_sublist_mem_left hab) hnla
          have haq : a ∈ s.queue := by
            simp only [stateMessages, List.mem_append] at hm'
            rcases hm' with (h1 | h1) | h1
            · have : m' = a := mem_enq_eq_of_id hI
                (hI.memQueue m' h1) (pair_sublist_mem_left hab) he
              exact this ▸ h1
            · exact absurd he (hp1 m' h1)
            · rcases List.mem_map.mp h1 with ⟨p, hp, hpm⟩
              exact absurd (hpm ▸ he) (hp3 p hp)
          have hbOutM : b ∈ out :=
            hvalout b (pair_sublist_mem_right hab) hbOut
          have hpair := pair_in_out s log maxN hI hab hnla hnlb haq hbOutM
          exact hnaOut (List.mem_map_of_mem (fun x => x.MessageId)
            (pair_sublist_mem_left hpair))
      simp only [stateMessages, List.mem_append] at hm
      rcases hm with (h1 | (h1 | h1)) | h1
      · exact habsS m (by
          simp only [stateMessages, List.mem_append]
          exact Or.inl (Or.inl h1))
      · exact habsS m (by
          simp only [stateMessages, List.mem_append]
          exact Or.inl (Or.inr h1))
      · exact habsS m (by
          simp only [stateMessages, List.mem_append]
          exact Or.inl (Or.inl (houtq m h1)))
      · exact habsS m (by
          simp only [stateMessages, List.mem_append]
          exact Or.inr h1)
  · intro hF a b hab hra hrb ha hb
    rw [hE] at hab
    rw [hR] at hra hrb
    rw [hL] at ha hb ⊢
    by_cases haOld : a.MessageId ∈ leaseSeq log
    · by_cases hbOld : b.MessageId ∈ leaseSeq log
      · rw [indexOf_append_left _ haOld, indexOf_append_left _ hbOld]
        exact hF a b hab hra hrb haOld hbOld
      · rw [indexOf_append_left _ haOld, indexOf_append_right _ hbOld]
        have := List.indexOf_lt_length.mpr haOld
        omega
    · by_cases hbOld : b.MessageId ∈ leaseSeq log
      · exfalso
        have habsS := hI.noSkip a b hab hra hrb hbOld haOld
        have haOut : a.MessageId ∈ out.map (fun x => x.MessageId) := by
          rcases List.mem_append.mp ha with h1 | h1
          · exact absurd h1 haOld
          · exact h1
        have haM : a ∈ out := hvalout a (pair_sublist_mem_left hab) haOut
        exact habsS a (by
          simp only [stateMessages, List.mem_append]
          exact Or.inl (Or.inl (houtq a haM))) rfl
      · have haOut : a.MessageId ∈ out.map (fun x => x.MessageId) := by
          rcases List.mem_append.mp ha with h1 | h1
          · exact absurd h1 haOld
          · exact h1
        have hbOut : b.MessageId ∈ out.map (fun x => x.MessageId) := by
          rcases List.mem_append.mp hb with h1 | h1
          · exact absurd h1 hbOld
          · exact h1
        have hnla : nrnlB log a.MessageId = true := by
          unfold nrnlB
          rw [hra]
          have : (leaseSeq log).contains a.MessageId = false := by
            cases hc : (leaseSeq log).contains a.MessageId with
            | false => rfl
            | true => exact absurd ((contains_iff_mem _ _).mp hc) haOld
          rw [this]
          rfl
        have hnlb : nrnlB log b.MessageId = true := by
          unfold nrnlB
          rw [hrb]
          have : (leaseSeq log).contains b.MessageId = false := by
            cases hc : (leaseSeq log).contains b.MessageId with
            | false => rfl
            | true => exact absurd ((contains_iff_mem _ _).mp hc) hbOld
          rw [this]
          rfl
        have haM : a ∈ out := hvalout a (pair_sublist_mem_left hab) haOut
        have hbM : b ∈ out := hvalout b (pair_sublist_mem_right hab) hbOut
        have hpair := pair_in_out s log maxN hI hab hnla hnlb
          (houtq a haM) hbM
        have hpairIds : List.Sublist [a.MessageId, b.MessageId]
            (out.map (fun x => x.MessageId)) := by
          have h2 := List.Sublist.map
            (fun x : OrderEventMessage => x.MessageId) hpair
          exact h2
        have hcnt : ∀ (x : OrderEventMessage), x ∈ enqList log →
            nrnlB log x.MessageId = true →
            (out.map (fun y => y.MessageId)).count x.MessageId ≤ 1 := by
          intro x hx hnx
          have hinj : ∀ y ∈ out, y.MessageId = x.MessageId → y = x := by
            intro y hy hye
            exact mem_enq_eq_of_id hI (hI.memQueue y (houtq y hy)) hx hye
          have h1 : (out.map (fun y => y.MessageId)).count x.MessageId =
              out.count x := count_map_eq_count (fun y => y.MessageId) x out hinj
          have h2 : out.count x ≤ (availableMessages s).count x :=
            ((List.take_sublist maxN (availableMessages s)).count_le x)
          have h3 : (availableMessages s).count x ≤ s.queue.count x :=
            ((List.filter_sublist s.queue).count_le x)
          have h4 := nrnl_count_queue_le_one hI hx hnx
          omega
        have hlt := indexOf_lt_of_pair_sublist hpairIds
          (hcnt a (pair_sublist_mem_left hab) hnla)
          (hcnt b (pair_sublist_mem_right hab) hnlb)
        rw [indexOf_append_right _ haOld, indexOf_append_right _ hbOld]
        omega

theorem log_neutral_facts (log : List LogEntry) (e : LogEntry)
    (h1 : enqList [e] = []) (h2 : leaseSeq [e] = [])
    (h3 : ∀ mid, retriedIn [e] mid = false) :
    enqList (log ++ [e]) = enqList log ∧
    leaseSeq (log ++ [e]) = leaseSeq log ∧
    ∀ mid, retriedIn (log ++ [e]) mid = retriedIn log mid := by
  refine ⟨?_, ?_, ?_⟩
  · rw [enqList_append, h1, List.append_nil]
  · rw [leaseSeq_append, h2, List.append_nil]
  · intro mid
    rw [retriedIn_append, h3, Bool.or_false]

theorem inv_fifo_step (s : SQSState) (log : List LogEntry) (op : QOp)
    (hI : Inv s log) :
    Inv (stepOp s op).1 (log ++ [(stepOp s op).2]) ∧
    (FifoOrdered log → FifoOrdered (log ++ [(stepOp s op).2])) := by
  cases op with
  | send event =>
      by_cases hdup : isDuplicate s.deduplicationCache
          event.deduplicationId s.now = true
      · have hstep : stepOp s (.send event) =
            ({ s with nextNonce := s.nextNonce + 1 },
             .suppressed (generateMessageId s.nextNonce)) := by
          simp only [stepOp, sendMessage, hdup, if_true]
        rw [hstep]
        obtain ⟨hE, hL, hR⟩ := log_neutral_facts log
          (.suppressed (generateMessageId s.nextNonce)) rfl rfl
          (fun mid => rfl)
        exact ⟨inv_congr hI hE hL hR rfl rfl rfl rfl
            (by show s.nextNonce ≤ s.nextNonce + 1; omega),
          fun hF => fifo_congr hE hL hR hF⟩
      · have hstep : stepOp s (.send event) =
            ({ s with
                nextNonce := s.nextNonce + 2,
                queue := s.queue ++
                  [mkMessage event (generateMessageId s.nextNonce)
                    (generateReceiptHandle (s.nextNonce + 1)) s.now],
                deduplicationCache :=
                  mapSet s.deduplicationCache event.deduplicationId s.now },
             .enqueued (mkMessage event (generateMessageId s.nextNonce)
               (generateReceiptHandle (s.nextNonce + 1)) s.now)) := by
          simp only [stepOp, sendMessage, hdup, if_false]
          rfl
        rw [hstep]
        exact inv_step_send_new s log event hI
  | receive maxN =>
      have hstep : stepOp s (.receive maxN) =
          ({ s with processingQueue :=
              s.processingQueue ++ (availableMessages s).take maxN },
           .leased ((availableMessages s).take maxN)) := rfl
      rw [hstep]
      exact inv_step_receive s log maxN hI
  | delete rh =>
      rcases hf : s.processingQueue.find? (fun m => m.ReceiptHandle == rh)
        with _ | m0
      · have hstep : stepOp s (.delete rh) =
            (s, .opFailed "Message not found in processing queue") := by
          simp only [stepOp, hf]
        rw [hstep]
        obtain ⟨hE, hL, hR⟩ := log_neutral_facts log
          (.opFailed "Message not found in processing queue") rfl rfl
          (fun mid => rfl)
        exact ⟨inv_congr hI hE hL hR rfl rfl rfl rfl (le_refl _),
          fun hF => fifo_congr hE hL hR hF⟩
      · have hm0 : m0 ∈ s.processingQueue := List.mem_of_find?_eq_some hf
        have hstep : stepOp s (.delete rh) =
            ({ s with
                processingQueue := removeFirstByHandle s.processingQueue rh,
                processedMessages :=
                  addToSet s.processedMessages m0.MessageId },
             .acked m0.MessageId) := by
          simp only [stepOp, deleteMessage, hf]
        rw [hstep]
        obtain ⟨hE, hL, hR⟩ := log_neutral_facts log
          (.acked m0.MessageId) rfl rfl (fun mid => rfl)
        exact ⟨inv_congr (inv_state_delete s log rh m0 hI hm0)
            hE hL hR rfl rfl rfl rfl (le_refl _),
          fun hF => fifo_congr hE hL hR hF⟩
  | ret rh =>
      rcases hf : s.processingQueue.find? (fun m => m.ReceiptHandle == rh)
        with _ | m0
      · have hstep : stepOp s (.ret rh) =
            (s, .opFailed "Message not found in processing queue") := by
          simp only [stepOp, hf]
        rw [hstep]
        obtain ⟨hE, hL, hR⟩ := log_neutral_facts log
          (.opFailed "Message not found in processing queue") rfl rfl
          (fun mid => rfl)
        exact ⟨inv_congr hI hE hL hR rfl rfl rfl rfl (le_refl _),
          fun hF => fifo_congr hE hL hR hF⟩
      · have hm0 : m0 ∈ s.processingQueue := List.mem_of_find?_eq_some hf
        have hstep : stepOp s (.ret rh) =
            ({ s with
                processingQueue := removeFirstByHandle s.processingQueue rh,
                delayed := s.delayed ++ [(s.now + 1000, m0)] },
             .retried m0.MessageId) := by
          simp only [stepOp, returnMessage, hf, getRetryCount, maxRetries,
            retryDelays]
          rfl
        rw [hstep]
        exact inv_step_ret_found s log rh m0 hI hm0
  | advance t =>
      have hstep : stepOp s (.advance t) = (advanceTo s t, .advanced t) := rfl
      rw [hstep]
      obtain ⟨hE, hL, hR⟩ := log_neutral_facts log (.advanced t) rfl rfl
        (fun mid => rfl)
      exact ⟨inv_congr (inv_state_advance s log t hI)
          hE hL hR rfl rfl rfl rfl (le_refl _),
        fun hF => fifo_congr hE hL hR hF⟩
  | purge =>
      have hstep : stepOp s .purge = (purgeQueue s, .purged) := rfl
      rw [hstep]
      obtain ⟨hE, hL, hR⟩ := log_neutral_facts log .purged rfl rfl
        (fun mid => rfl)
      exact ⟨inv_congr (inv_state_purge s log hI)
          hE hL hR rfl rfl rfl rfl (le_refl _),
        fun hF => fifo_congr hE hL hR hF⟩

theorem inv_fifo_run :
    ∀ (ops : List QOp) (s : SQSState) (log : List LogEntry),
    Inv s log → FifoOrdered log →
    Inv (runOps s ops).1 (log ++ (runOps s ops).2) ∧
      FifoOrdered (log ++ (runOps s ops).2) := by
  intro ops
  induction ops with
  | nil =>
      intro s log hI hF
      constructor
      · show Inv s (log ++ [])
        rw [List.append_nil]
        exact hI
      · show FifoOrdered (log ++ [])
        rw [List.append_nil]
        exact hF
  | cons op ops ih =>
      intro s log hI hF
      have hstep := inv_fifo_step s log op hI
      have hrun : runOps s (op :: ops) =
          ((runOps (stepOp s op).1 ops).1,
           (stepOp s op).2 :: (runOps (stepOp s op).1 ops).2) := rfl
      rw [hrun]
      have hlog : log ++ ((stepOp s op).2 ::
          (runOps (stepOp s op).1 ops).2) =
          (log ++ [(stepOp s op).2]) ++ (runOps (stepOp s op).1 ops).2 := by
        rw [List.append_assoc]
        rfl
      rw [hlog]
      exact ih (stepOp s op).1 (log ++ [(stepOp s op).2])
        hstep.1 (hstep.2 hF)

/-- C5. In every run of queue operations from the fresh queue, for every
pair of enqueued events in enqueue order (in particular those sharing a
groupId) neither of which is ever sent back for retry, and both of which
are leased at some point, the first lease of the earlier-enqueued event
comes no later than the first lease of the later one: per-group FIFO for
never-retried events. -/
theorem c5_per_group_fifo (ops : List QOp) (a b : OrderEventMessage)
    (henq : List.Sublist [a, b] (enqList (runOps initState ops).2))
    (hgroup : a.AttrGroupId = b.AttrGroupId)
    (hra : retriedIn (runOps initState ops).2 a.MessageId = false)
    (hrb : retriedIn (runOps initState ops).2 b.MessageId = false)
    (hla : a.MessageId ∈ leaseSeq (runOps initState ops).2)
    (hlb : b.MessageId ∈ leaseSeq (runOps initState ops).2) :
    List.indexOf a.MessageId (leaseSeq (runOps initState ops).2) ≤
      List.indexOf b.MessageId (leaseSeq (runOps initState ops).2) := by
  have h := (inv_fifo_run ops initState [] inv_init fifo_nil).2
  rw [List.nil_append] at h
  exact h a b henq hra hrb hla hlb

/-- Message value produced by enqueueing statusUpdateEvent second (nonces
2 and 3) at time 0. -/
def statusUpdateMessage : OrderEventMessage :=
  mkMessage statusUpdateEvent "msg_11" "receipt_111" 0

/-- C5 witness: two same-group events enqueued in order and leased in one
batch are leased in enqueue order. -/
theorem c5_per_group_fifo_witness :
    List.indexOf "msg_" (leaseSeq (runOps initState
      [.send adaCreateEvent, .send statusUpdateEvent, .receive 10]).2) ≤
      List.indexOf "msg_11" (leaseSeq (runOps initState
        [.send adaCreateEvent, .send statusUpdateEvent, .receive 10]).2) :=
  c5_per_group_fifo
    [.send adaCreateEvent, .send statusUpdateEvent, .receive 10]
    adaMessage statusUpdateMessage
    (by
      show List.Sublist [adaMessage, statusUpdateMessage]
        [adaMessage, statusUpdateMessage]
      exact List.Sublist.refl _)
    rfl rfl rfl
    (by decide) (by decide)

end Shop
